import Mathlib

/-!
Verification of the `loop_archive` archive-and-evict pipeline.

This file shallowly embeds `src/loop_archive.py`.  Filesystem state is
modelled explicitly:

* A regular file is a `DFile` (name, mtime, byte content); the directories
  the pipeline itself reads and writes (the mounted source and the
  destination) are modelled as flat lists of regular files `Dir`, which is
  the shape the program creates (`archive_move` writes every file directly
  under `destination_path` with `destination_path / item.name`).  Since a
  *pre-existing* destination may contain subdirectories, `loop_delete` is
  additionally modelled over general `Entry` trees (`loop_delete_tree`),
  where `rglob('*')` yields directory entries too and `Path.unlink()`
  raises on them.
* For `get_directory_size`, which the source defines over arbitrary trees
  via `path.rglob('*')`, a recursive `Entry` tree is modelled as well;
  `rglob('*')` enumerates *every* entry below the root, directories
  included, and `stat().st_size` of a directory entry is whatever the
  filesystem reports for the directory inode (typically nonzero, e.g. 4096
  on ext4); that reported number is the `statSize` field of a directory
  entry.  A bridging lemma shows the flat pipeline size agrees with the
  tree translation on flat directories.
* External processes (`subprocess.run` inside `_run_process`) are modelled
  by passing in the exit code the spawned command would return; spawning
  is recorded in an action trace.  Mutating filesystem operations
  (`shutil.copy2`, `Path.unlink`, `tempfile.mkdtemp`, `Path.rmdir`) are
  recorded in the same trace.  Log records are not modelled.
* Glob patterns are modelled with fnmatch's `*` and `?` metacharacters
  matched against file names (the patterns this repository's tests and
  configs use); `pathlib`'s glob does not treat dotfiles specially, and
  neither does the model.
* Python exceptions become the `PyErr` inductive; a fallible operation
  returns `Except PyErr`.
-/

namespace LoopArchive

/-- A regular file: name, modification time, byte content.
`stat().st_size` of a regular file is its content length. -/
structure DFile where
  name : String
  mtime : Nat
  content : String
deriving Repr, DecidableEq

/-- Byte size of a regular file (`stat().st_size`). -/
def DFile.size (f : DFile) : Nat := f.content.length

/-- A flat directory of regular files, the shape of every directory the
pipeline itself reads or writes. -/
abbrev Dir := List DFile

/-- Flags mirroring the `--dry_run` and `--dry_run_loop` absl flags. -/
structure Flags where
  dry_run : Bool
  dry_run_loop : Bool
deriving Repr, DecidableEq

/-- Model of `_DRY_RUN.value or _DRY_RUN_LOOP.value`, the guard used by
`archive_move`, `loop_delete` and `archive_delete`. -/
def Flags.dryLoop (fl : Flags) : Bool := fl.dry_run || fl.dry_run_loop

/-- fnmatch-style matching of a glob pattern against a file name, with the
`*` (any sequence, dotfiles included, as in `pathlib`) and `?` (any single
character) metacharacters.  `pathlib.Path.glob(pattern)` with a
single-level pattern returns exactly the entries whose name matches. -/
def globMatch : List Char → List Char → Bool
  | [], s => s.isEmpty
  | '*' :: ps, s => s.tails.any fun t => globMatch ps t
  | '?' :: ps, s =>
    match s with
    | [] => false
    | _ :: cs => globMatch ps cs
  | p :: ps, s =>
    match s with
    | [] => false
    | c :: cs => p == c && globMatch ps cs

/-- Holds when `pattern` matches the name of file `f`. -/
def matchesPat (pattern : String) (f : DFile) : Bool :=
  globMatch pattern.data f.name.data

/-- Model of `item.unlink()`: remove the (unique, on a real filesystem) directory
entry with the given name. -/
def unlinkName (d : Dir) (n : String) : Dir :=
  d.eraseP fun f => f.name == n

/-- Model of `shutil.copy2(item, destination_path / item.name)`: write `f` under its
own name into `d`, overwriting an existing entry of the same name, and
preserving content and modification time. -/
def upsert (d : Dir) (f : DFile) : Dir :=
  if d.any (fun g => g.name == f.name) then
    d.map fun g => if g.name == f.name then f else g
  else
    d ++ [f]

/-- Stable insertion of a file into a list sorted by ascending mtime;
an equal-mtime incumbent keeps its earlier position. -/
def insertMtime (f : DFile) : Dir → Dir
  | [] => [f]
  | g :: gs => if g.mtime ≤ f.mtime then g :: insertMtime f gs else f :: g :: gs

/-- Model of `sorted(path.rglob('*'), key=lambda item: item.stat().st_mtime)` on a
flat directory: a stable sort by ascending modification time. -/
def sortByMtime : Dir → Dir
  | [] => []
  | f :: fs => insertMtime f (sortByMtime fs)

/-- Model of `make_directory_iterator(path)`: the oldest-first snapshot sequence of
the directory's entries.  (The Python generator materialises the snapshot
on its first `next`; nothing mutates the directory between the iterator's
creation in `loop_delete` and that first `next`, so taking the snapshot at
creation is observationally the same within `loop_delete`.) -/
def make_directory_iterator (d : Dir) : Dir := sortByMtime d

/-- Flat-directory instance of `get_directory_size`:
`sum(item.stat().st_size for item in path.rglob('*'))` where every entry
under `path` is a regular file. -/
def dirSize (d : Dir) : Nat := (d.map DFile.size).sum

/-- Python exceptions raised by the program. -/
inductive PyErr where
  | stopIteration
  | mountError (msg : String)
  | runtimeError (msg : String)
  | valueError (msg : String)
  | attributeError (msg : String)
  | isADirectoryError (msg : String)
  | notADirectoryError (msg : String)
  | fileNotFoundError (msg : String)
deriving Repr, DecidableEq

/-- One recorded filesystem/process side effect.  Log records are not
modelled. -/
inductive Action where
  | spawn (args : List String)
  | copy (name : String)
  | unlink (name : String)
  | mkdtemp (tid : Nat)
  | rmdir (tid : Nat)
deriving Repr, DecidableEq

/-- Model of the `while` loop of `loop_delete`, walking the oldest-first snapshot
`it`.  Each executed deletion is returned as a ghost event
`(size of the directory at the guard just before the deletion, name)`.
Faithful to the source order: the guard `get_directory_size > loop_size`
is evaluated first, then `next(deletion_iterator)` (raising
`StopIteration` when the snapshot is exhausted), and only then the
dry-run check (which breaks out of the loop without deleting). -/
def loop_delete_go (dry : Bool) (loop_size : Nat) : Dir → Dir → Except PyErr (Dir × List (Nat × String))
  | d, [] =>
    if dirSize d ≤ loop_size then .ok (d, []) else .error .stopIteration
  | d, f :: rest =>
    if dirSize d ≤ loop_size then .ok (d, [])
    else if dry then .ok (d, [])
    else
      match loop_delete_go dry loop_size (unlinkName d f.name) rest with
      | .error e => .error e
      | .ok r => .ok (r.1, (dirSize d, f.name) :: r.2)

/-- Model of `loop_delete(destination_path, loop_size)` on a destination
whose entries are all regular files — the state the pipeline itself
maintains.  `loop_delete_tree` below is the general-tree model of the
same source function. -/
def loop_delete (fl : Flags) (loop_size : Nat) (d : Dir) : Except PyErr (Dir × List (Nat × String)) :=
  loop_delete_go fl.dryLoop loop_size d (make_directory_iterator d)

/-- An entry of a directory tree: a regular file, or a subdirectory with
its modification time, the size the filesystem reports for the directory
inode itself (`stat().st_size` of a directory, e.g. 4096 on ext4), and
its children. -/
inductive Entry where
  | file (name : String) (mtime : Nat) (content : String)
  | subdir (name : String) (mtime : Nat) (statSize : Nat) (children : List Entry)

/-- Name of one entry. -/
def Entry.name : Entry → String
  | .file n _ _ => n
  | .subdir n _ _ _ => n

/-- The `stat().st_mtime` of one entry. -/
def Entry.stMtime : Entry → Nat
  | .file _ m _ => m
  | .subdir _ m _ _ => m

/-- The `stat().st_size` of one entry. -/
def Entry.stSize : Entry → Nat
  | .file _ _ content => content.length
  | .subdir _ _ statSize _ => statSize

mutual

/-- The `path.rglob('*')` contribution of one entry: the entry itself followed
by all entries below it.  `rglob('*')` yields every descendant entry,
directories included. -/
def rglobE : Entry → List Entry
  | .file n m c => [.file n m c]
  | .subdir n m s ch => .subdir n m s ch :: rglobL ch

/-- Model of `path.rglob('*')`: every entry reachable under the listed children. -/
def rglobL : List Entry → List Entry
  | [] => []
  | e :: es => rglobE e ++ rglobL es

end

/-- Model of `get_directory_size(path)`:
`sum(item.stat().st_size for item in path.rglob('*'))`, over the tree of
entries under `path`. -/
def get_directory_size (es : List Entry) : Nat :=
  ((rglobL es).map Entry.stSize).sum

mutual

/-- Specification-side quantity (from the spec's words, for comparison):
total byte length of every regular file reachable under one entry. -/
def fileBytesE : Entry → Nat
  | .file _ _ c => c.length
  | .subdir _ _ _ ch => fileBytesL ch

/-- Specification-side quantity: total byte length of every regular file
reachable under the listed children. -/
def fileBytesL : List Entry → Nat
  | [] => 0
  | e :: es => fileBytesE e + fileBytesL es

end

mutual

/-- Total `st_size` reported for directory inodes reachable under one
entry (the entry included if it is itself a directory). -/
def dirStatE : Entry → Nat
  | .file _ _ _ => 0
  | .subdir _ _ s ch => s + dirStatL ch

/-- Total `st_size` reported for directory inodes reachable under the
listed children. -/
def dirStatL : List Entry → Nat
  | [] => 0
  | e :: es => dirStatE e + dirStatL es

end

/-- An entry is a regular file. -/
def Entry.isFile : Entry → Bool
  | .file .. => true
  | .subdir .. => false

/-- View a flat directory of regular files as a list of tree entries. -/
def DFile.toEntry (f : DFile) : Entry := .file f.name f.mtime f.content

/-- Path of an entry relative to the walked root: the entry names from
the root down to the entry.  `path.rglob('*')` yields such paths. -/
abbrev EntryPath := List String

mutual

/-- Path-carrying `rglob('*')` contribution of one entry below prefix
`pre`: its own path paired with it, followed by its descendants. -/
def rglobPE (pre : EntryPath) : Entry → List (EntryPath × Entry)
  | .file n m c => [(pre ++ [n], .file n m c)]
  | .subdir n m s ch => (pre ++ [n], .subdir n m s ch) :: rglobPL (pre ++ [n]) ch

/-- Path-carrying `rglob('*')` over a list of children below prefix
`pre`.  The entries are the same ones `rglobL` yields, now paired with
the paths `Path.rglob` actually returns. -/
def rglobPL (pre : EntryPath) : List Entry → List (EntryPath × Entry)
  | [] => []
  | e :: es => rglobPE pre e ++ rglobPL pre es

end

/-- Stable insertion of a path-entry pair into a list sorted by the
entries' ascending `st_mtime`; an equal-mtime incumbent keeps its
earlier position. -/
def insertMtimeP (x : EntryPath × Entry) :
    List (EntryPath × Entry) → List (EntryPath × Entry)
  | [] => [x]
  | y :: ys =>
    if y.2.stMtime ≤ x.2.stMtime then y :: insertMtimeP x ys else x :: y :: ys

/-- Stable sort of path-entry pairs by ascending `st_mtime`, as
`sorted(..., key=lambda item: item.stat().st_mtime)` does. -/
def sortByMtimeP : List (EntryPath × Entry) → List (EntryPath × Entry)
  | [] => []
  | x :: xs => insertMtimeP x (sortByMtimeP xs)

/-- Model of `make_directory_iterator(path)` over a general directory
tree: the oldest-first snapshot of every reachable entry (directories
included), each paired with its path. -/
def make_directory_iterator_tree (es : List Entry) : List (EntryPath × Entry) :=
  sortByMtimeP (rglobPL [] es)

/-- Model of `Path.unlink()` on a general directory tree: remove the
regular file the path denotes.  Following POSIX `unlink(2)` as surfaced
by Python: the call raises `IsADirectoryError` when the path denotes a
directory, `FileNotFoundError` when a component is missing, and
`NotADirectoryError` when a non-final component is a regular file. -/
def unlinkPath : List Entry → EntryPath → Except PyErr (List Entry)
  | _, [] => .error (.fileNotFoundError "No such file or directory")
  | [], _ :: _ => .error (.fileNotFoundError "No such file or directory")
  | e :: es, [n] =>
    if e.name = n then
      match e with
      | .file _ _ _ => .ok es
      | .subdir _ _ _ _ => .error (.isADirectoryError "Is a directory")
    else
      match unlinkPath es [n] with
      | .error err => .error err
      | .ok es' => .ok (e :: es')
  | e :: es, n :: r :: rest =>
    if e.name = n then
      match e with
      | .subdir nm m sz ch =>
        match unlinkPath ch (r :: rest) with
        | .error err => .error err
        | .ok ch' => .ok (.subdir nm m sz ch' :: es)
      | .file _ _ _ => .error (.notADirectoryError "Not a directory")
    else
      match unlinkPath es (n :: r :: rest) with
      | .error err => .error err
      | .ok es' => .ok (e :: es')
termination_by es p => (p.length, es.length)

/-- Model of the `while` loop of `loop_delete` over a general directory
tree, walking the oldest-first path-carrying snapshot.  Same source
order as the flat model: guard first, then `next(deletion_iterator)`
(`StopIteration` on exhaustion), then the dry-run break, then
`deletion_candidate.unlink()` — which raises when the candidate is a
directory entry. -/
def loop_delete_tree_go (dry : Bool) (loop_size : Nat) :
    List Entry → List (EntryPath × Entry) → Except PyErr (List Entry)
  | es, [] =>
    if get_directory_size es ≤ loop_size then .ok es else .error .stopIteration
  | es, pe :: rest =>
    if get_directory_size es ≤ loop_size then .ok es
    else if dry then .ok es
    else
      match unlinkPath es pe.1 with
      | .error err => .error err
      | .ok es' => loop_delete_tree_go dry loop_size es' rest

/-- Model of `loop_delete(destination_path, loop_size)` over a general
directory tree — the faithful translation when the destination may
contain subdirectories, since both the size guard and the snapshot run
over `path.rglob('*')`, which yields directory entries too.  The flat
`loop_delete` above is this function restricted to the file-only
destinations the pipeline itself maintains. -/
def loop_delete_tree (fl : Flags) (loop_size : Nat) (es : List Entry) :
    Except PyErr (List Entry) :=
  loop_delete_tree_go fl.dryLoop loop_size es (make_directory_iterator_tree es)

/-- Model of the inner `for item in source_path.glob(pattern)` loop of
`archive_move` over the snapshot `items` of matching files: for each item,
unless in dry-run mode, `shutil.copy2` it into the destination under its
own name and `unlink` it from the source. -/
def archive_move_go (dry : Bool) : Dir → Dir → Dir → Dir × Dir × List Action
  | src, dst, [] => (src, dst, [])
  | src, dst, f :: rest =>
    if dry then archive_move_go dry src dst rest
    else
      let r := archive_move_go dry (unlinkName src f.name) (upsert dst f) rest
      (r.1, r.2.1, Action.copy f.name :: Action.unlink f.name :: r.2.2)

/-- Model of the outer `for pattern in patterns` loop of `archive_move`: each
pattern is globbed against the *current* source directory, then its
matches are processed. -/
def archive_move_pats (dry : Bool) : List String → Dir → Dir → Dir × Dir × List Action
  | [], src, dst => (src, dst, [])
  | p :: ps, src, dst =>
    let r1 := archive_move_go dry src dst (src.filter (matchesPat p))
    let r2 := archive_move_pats dry ps r1.1 r1.2.1
    (r2.1, r2.2.1, r1.2.2 ++ r2.2.2)

/-- Model of `archive_move(source_path, destination_path, patterns)`. -/
def archive_move (fl : Flags) (patterns : List String) (src dst : Dir) : Dir × Dir × List Action :=
  archive_move_pats fl.dryLoop patterns src dst

/-- Model of the inner loop of `archive_delete` over the snapshot of matching
files: each item is `unlink`ed unless in dry-run mode. -/
def archive_delete_go (dry : Bool) : Dir → Dir → Dir × List Action
  | src, [] => (src, [])
  | src, f :: rest =>
    if dry then archive_delete_go dry src rest
    else
      let r := archive_delete_go dry (unlinkName src f.name) rest
      (r.1, Action.unlink f.name :: r.2)

/-- Model of the outer pattern loop of `archive_delete`. -/
def archive_delete_pats (dry : Bool) : List String → Dir → Dir × List Action
  | [], src => (src, [])
  | p :: ps, src =>
    let r1 := archive_delete_go dry src (src.filter (matchesPat p))
    let r2 := archive_delete_pats dry ps r1.1
    (r2.1, r1.2 ++ r2.2)

/-- Model of `archive_delete(source_path, patterns)`. -/
def archive_delete (fl : Flags) (patterns : List String) (src : Dir) : Dir × List Action :=
  archive_delete_pats fl.dryLoop patterns src

/-- Model of the `StorageDevice` message of `SourceSpec.location`: device UUID,
optional `path_format` (empty string means unset, proto3 default), and
mount options. -/
structure StorageDevice where
  uuid : String
  path_format : String
  mount_options : List String
deriving Repr, DecidableEq

/-- Model of the `location` oneof of `SourceSpec`; `unset` models
`WhichOneof('location')` returning `None`. -/
inductive Location where
  | storage_device (sd : StorageDevice)
  | unset
deriving Repr, DecidableEq

/-- Model of the `SourceSpec` proto message. -/
structure SourceSpec where
  location : Location
  patterns : List String
  delete_patterns : List String
deriving Repr, DecidableEq

/-- Model of the `DestinationSpec` proto message; `loop_size` is a non-negative
byte quota. -/
structure DestinationSpec where
  path : String
  loop_size : Nat
deriving Repr, DecidableEq

/-- Environment one source interacts with: the files on the device
(visible at the mount point while mounted), and the exit codes the real
`mount` and `umount` commands would return for this source. -/
structure Env where
  deviceFiles : Dir
  mountExit : Nat
  umountExit : Nat
deriving Repr, DecidableEq

/-- Filesystem state outside the mounted source: the destination
directory's files, whether the destination path exists and is a
directory, the set of currently existing temporary mount-point
directories (as ids), and the id `tempfile.mkdtemp` hands out next. -/
structure World where
  dst : Dir
  dstIsDir : Bool
  tempDirs : List Nat
  nextTemp : Nat
deriving Repr, DecidableEq

/-- Fresh temp-dir ids are always below the allocator counter, so a fresh
`mkdtemp` result never collides with an existing directory. -/
def TempWF (w : World) : Prop := ∀ t ∈ w.tempDirs, t < w.nextTemp

/-- Model of `_run_process(args)`: in dry-run mode fabricate a zero exit without
spawning; otherwise spawn the command (recorded in the trace) and observe
its exit code.  Never raises on nonzero exit. -/
def run_process (fl : Flags) (args : List String) (realExit : Nat) : Nat × List Action :=
  if fl.dry_run then (0, []) else (realExit, [Action.spawn args])

/-- Argument vector `sudo mount [-o opt1,opt2,...] device mountPath`. -/
def mountArgs (device mountPath : String) (options : Option (List String)) : List String :=
  ["sudo", "mount"] ++
    (match options with
     | none => []
     | some opts => ["-o", String.intercalate "," opts]) ++
    [device, mountPath]

/-- Model of `mount(device_path, mount_path, options)`: raises `MountError` exactly
when the invocation's exit code is nonzero. -/
def mount (fl : Flags) (device mountPath : String) (options : Option (List String))
    (realExit : Nat) : Except PyErr Unit × List Action :=
  let r := run_process fl (mountArgs device mountPath options) realExit
  if r.1 ≠ 0 then
    (.error (.mountError ("Mount failed for " ++ device ++ " <- " ++ mountPath ++ ".")), r.2)
  else
    (.ok (), r.2)

/-- Model of `umount(mount_path)`: raises a generic `RuntimeError` (not a
`MountError`) when the invocation's exit code is nonzero. -/
def umount (fl : Flags) (mountPath : String) (realExit : Nat) : Except PyErr Unit × List Action :=
  let r := run_process fl ["sudo", "umount", mountPath] realExit
  if r.1 ≠ 0 then
    (.error (.runtimeError ("Umount failed for " ++ mountPath ++ ".")), r.2)
  else
    (.ok (), r.2)

/-- Python `%`-formatting of the single `%s` in the path template. -/
def percentS : List Char → String → List Char
  | [], _ => []
  | '%' :: 's' :: rest, arg => arg.data ++ rest
  | c :: rest, arg => c :: percentS rest arg

/-- Device node path: `path_format % (uuid,)` with the default
template `/dev/disk/by-uuid/%s` when `path_format` is unset. -/
def devicePath (sd : StorageDevice) : String :=
  String.mk (percentS
    (if sd.path_format = "" then "/dev/disk/by-uuid/%s" else sd.path_format).data
    sd.uuid)

/-- Path of temp directory `tid`. -/
def tempPath (tid : Nat) : String := "/tmp/tmp" ++ toString tid

/-- Outcome of `setup_source_spec` or `teardown_source_spec`: the returned
value or raised exception, the `self.source_path` attribute afterwards,
the world afterwards, and the recorded side effects. -/
structure ScopeStep where
  result : Except PyErr Nat
  state : Option Nat
  world : World
  trace : List Action
deriving Repr

/-- Model of `SourcePathContext.setup_source_spec`, with `st` the current
`self.source_path` (`none` = `None`).  For a storage device it creates a
fresh temporary directory, assigns it to `self.source_path`, and only
then mounts — so when `mount` raises `MountError`, the temp directory has
already been created and nothing in this method removes it. -/
def setup_source_spec (fl : Flags) (spec : SourceSpec) (env : Env) (st : Option Nat)
    (w : World) : ScopeStep :=
  match st with
  | some p => ⟨.error (.runtimeError "Cannot setup; already setup."), some p, w, []⟩
  | none =>
    match spec.location with
    | .storage_device sd =>
      let tid := w.nextTemp
      let w1 : World := { w with tempDirs := w.tempDirs ++ [tid], nextTemp := w.nextTemp + 1 }
      let m := mount fl (devicePath sd) (tempPath tid) (some sd.mount_options) env.mountExit
      match m.1 with
      | .error e => ⟨.error e, some tid, w1, Action.mkdtemp tid :: m.2⟩
      | .ok _ => ⟨.ok tid, some tid, w1, Action.mkdtemp tid :: m.2⟩
    | .unset => ⟨.error (.valueError "Unsupported SourceSpec.location: None"), none, w, []⟩

/-- Outcome of `teardown_source_spec`. -/
structure TeardownStep where
  result : Except PyErr Unit
  state : Option Nat
  world : World
  trace : List Action
deriving Repr

/-- Model of `SourcePathContext.teardown_source_spec`: `umount(self.source_path)`,
then `self.source_path.rmdir()`, then `self.source_path = None`.  When
`umount` raises, neither the `rmdir` nor the reset runs.  When
`self.source_path` is `None`, `umount` is invoked on the literal string
`None` and a successful exit would hit `None.rmdir()`
(an `AttributeError`). -/
def teardown_source_spec (fl : Flags) (spec : SourceSpec) (env : Env) (st : Option Nat)
    (w : World) : TeardownStep :=
  match spec.location with
  | .storage_device _ =>
    match st with
    | some tid =>
      let u := umount fl (tempPath tid) env.umountExit
      match u.1 with
      | .error e => ⟨.error e, some tid, w, u.2⟩
      | .ok _ =>
        ⟨.ok (), none, { w with tempDirs := w.tempDirs.erase tid },
          u.2 ++ [Action.rmdir tid]⟩
    | none =>
      let u := umount fl "None" env.umountExit
      match u.1 with
      | .error e => ⟨.error e, none, w, u.2⟩
      | .ok _ => ⟨.error (.attributeError "NoneType object has no attribute rmdir"), none, w, u.2⟩
  | .unset => ⟨.error (.valueError "Unsupported SourceSpec.location: None"), st, w, []⟩

/-- Outcome of one `archive(source_spec, destination_spec)` call: the
result, the device's files afterwards, the world afterwards, and the
recorded side effects. -/
structure ArchiveResult where
  result : Except PyErr Unit
  device : Dir
  world : World
  trace : List Action
deriving Repr

/-- Message of the `ValueError` of the destination validation (the source
string literal is not an f-string, so the braces appear verbatim). -/
def destMissingMsg : String := "\x7bdestination_path\x7d does not exist or is not a directory."

/-- Model of `archive(source_spec, destination_spec)`: validate that the
destination path exists and is a directory; then
`with SourcePathContext(source_spec) as source_path:` run `archive_move`,
`loop_delete`, `archive_delete` in that order.  Python `with` semantics:
if `__enter__` (setup) raises, the body and `__exit__` never run; if the
body raises, `__exit__` (teardown) still runs, and an exception raised by
`__exit__` itself replaces the body's. -/
def archive (fl : Flags) (spec : SourceSpec) (dspec : DestinationSpec) (env : Env)
    (w : World) : ArchiveResult :=
  if w.dstIsDir = false then
    ⟨.error (.valueError destMissingMsg), env.deviceFiles, w, []⟩
  else
    let s := setup_source_spec fl spec env none w
    match s.result with
    | .error e => ⟨.error e, env.deviceFiles, s.world, s.trace⟩
    | .ok _ =>
      let mv := archive_move fl spec.patterns env.deviceFiles s.world.dst
      let w1 := { s.world with dst := mv.2.1 }
      match loop_delete fl dspec.loop_size w1.dst with
      | .error e =>
        let t := teardown_source_spec fl spec env s.state w1
        ⟨(match t.result with | .error e2 => .error e2 | .ok _ => .error e), mv.1, t.world,
          s.trace ++ mv.2.2 ++ t.trace⟩
      | .ok ld =>
        let w2 := { w1 with dst := ld.1 }
        let ad := archive_delete fl spec.delete_patterns mv.1
        let t := teardown_source_spec fl spec env s.state w2
        ⟨(match t.result with | .error e2 => .error e2 | .ok _ => .ok ()), ad.1, t.world,
          s.trace ++ mv.2.2 ++ ld.2.map (fun ev => Action.unlink ev.2) ++ ad.2 ++ t.trace⟩

/-- Outcome of the job driver's loop over the configured sources. -/
structure MainResult where
  result : Except PyErr Unit
  devices : List Dir
  world : World
  trace : List Action
deriving Repr

/-- Model of the `for source_spec in config.source_specs` loop of `main`: call
`archive` per source, catch exactly `MountError` (log a warning and
proceed to the next source); any other exception propagates immediately,
leaving the remaining sources unprocessed. -/
def processSources (fl : Flags) (dspec : DestinationSpec) :
    List (SourceSpec × Env) → World → MainResult
  | [], w => ⟨.ok (), [], w, []⟩
  | (spec, env) :: rest, w =>
    let a := archive fl spec dspec env w
    match a.result with
    | .ok _ =>
      let m := processSources fl dspec rest a.world
      ⟨m.result, a.device :: m.devices, m.world, a.trace ++ m.trace⟩
    | .error (.mountError _) =>
      let m := processSources fl dspec rest a.world
      ⟨m.result, a.device :: m.devices, m.world, a.trace ++ m.trace⟩
    | .error e =>
      ⟨.error e, a.device :: rest.map (fun x => x.2.deviceFiles), a.world, a.trace⟩

/-- Exit code `_run_process` reports: 0 in full dry-run mode (fabricated
success, nothing spawned), the real command's exit code otherwise. -/
def effExit (fl : Flags) (realExit : Nat) : Nat :=
  if fl.dry_run then 0 else realExit

/-- Predicate on recorded actions: the action spawns an external
process. -/
def Action.isSpawn : Action → Bool
  | .spawn _ => true
  | _ => false

/-- Predicate on recorded actions: the action copies, deletes or moves a
file. -/
def Action.isFileMutation : Action → Bool
  | .copy _ => true
  | .unlink _ => true
  | _ => false

/-- Concrete storage device used for concrete runs. -/
def sdU : StorageDevice := ⟨"test-uuid", "", ["umask=000"]⟩

/-- Concrete source spec used for concrete runs. -/
def specU : SourceSpec := ⟨.storage_device sdU, ["*.MP4"], ["*.THM"]⟩

/-- Concrete destination spec (quota of 2 bytes) used for concrete runs. -/
def dspecU : DestinationSpec := ⟨"/archive", 2⟩

/-- Concrete initial world: empty valid destination, no temp dirs. -/
def w0 : World := ⟨[], true, [], 0⟩

/-- Concrete environment whose mount command fails with exit code 1. -/
def envFailMount : Env := ⟨[], 1, 0⟩

/-- Concrete environment with one matching device file and succeeding
mount and umount commands. -/
def envOk : Env := ⟨[⟨"v.MP4", 0, "ab"⟩], 0, 0⟩

/-- Flags for a real (non-dry) run. -/
def flReal : Flags := ⟨false, false⟩

/-- Flags for a full dry run. -/
def flDry : Flags := ⟨true, false⟩

/-! ## Basic lemmas about directory operations -/

theorem unlinkName_map_name (d : Dir) (n : String) :
    (unlinkName d n).map DFile.name = (d.map DFile.name).erase n := by
  induction d with
  | nil => simp [unlinkName]
  | cons f fs ih =>
    by_cases h : f.name == n
    · simp [unlinkName, List.eraseP_cons, h, List.erase_cons, h]
    · simpa [unlinkName, List.eraseP_cons, h, List.erase_cons, h] using ih

theorem insertMtime_perm (f : DFile) (l : Dir) : List.Perm (insertMtime f l) (f :: l) := by
  induction l with
  | nil => simp [insertMtime]
  | cons g gs ih =>
    by_cases h : g.mtime ≤ f.mtime
    · simp only [insertMtime, if_pos h]
      exact .trans (.cons g ih) (List.Perm.swap f g gs)
    · simp [insertMtime, if_neg h]

theorem sortByMtime_perm (d : Dir) : List.Perm (sortByMtime d) d := by
  induction d with
  | nil => simp [sortByMtime]
  | cons f fs ih => exact .trans (insertMtime_perm f (sortByMtime fs)) (.cons f ih)

theorem dirSize_nil : dirSize ([] : Dir) = 0 := rfl

/-- Core invariant of the eviction loop: as long as the names of the
directory's current entries are a permutation of the names of the
snapshot's remaining entries, the loop terminates normally, every
deletion it performs happens at a guard where the directory size still
exceeds the quota, and (when not in dry-run mode) the final size is
within the quota. -/
theorem loop_delete_go_ok (dry : Bool) (n : Nat) :
    ∀ (it d : Dir), List.Perm (d.map DFile.name) (it.map DFile.name) →
    ∃ d' evs, loop_delete_go dry n d it = .ok (d', evs) ∧
      (dry = false → dirSize d' ≤ n) ∧ ∀ ev ∈ evs, n < ev.1 := by
  intro it
  induction it with
  | nil =>
    intro d hperm
    have hnil : d.map DFile.name = [] := List.Perm.eq_nil (by simpa using hperm)
    have hd : d = [] := by
      cases d with
      | nil => rfl
      | cons f fs => simp at hnil
    subst hd
    refine ⟨[], [], ?_, fun _ => by simp [dirSize], by simp⟩
    simp [loop_delete_go, dirSize]
  | cons f rest ih =>
    intro d hperm
    by_cases hs : dirSize d ≤ n
    · exact ⟨d, [], by simp [loop_delete_go, hs], fun _ => hs, by simp⟩
    · rcases Bool.eq_false_or_eq_true dry with hdry | hdry
      · subst hdry
        refine ⟨d, [], ?_, by simp, by simp⟩
        simp [loop_delete_go, hs]
      · subst hdry
        have hperm' : List.Perm ((unlinkName d f.name).map DFile.name) (rest.map DFile.name) := by
          rw [unlinkName_map_name]
          have := hperm.erase f.name
          simpa [List.erase_cons_head] using this
        obtain ⟨d', evs, heq, hle, hev⟩ := ih (unlinkName d f.name) hperm'
        refine ⟨d', (dirSize d, f.name) :: evs, ?_, fun _ => hle rfl, ?_⟩
        · simp [loop_delete_go, hs, heq]
        · intro ev hmem
          rcases List.mem_cons.mp hmem with h | h
          · subst h; exact Nat.lt_of_not_le hs
          · exact hev ev h

theorem loop_delete_ok (fl : Flags) (n : Nat) (d : Dir) :
    ∃ d' evs, loop_delete fl n d = .ok (d', evs) ∧
      (fl.dryLoop = false → dirSize d' ≤ n) ∧ ∀ ev ∈ evs, n < ev.1 := by
  have hperm : List.Perm (d.map DFile.name) ((make_directory_iterator d).map DFile.name) :=
    ((sortByMtime_perm d).map DFile.name).symm
  simpa [loop_delete] using loop_delete_go_ok fl.dryLoop n (make_directory_iterator d) d hperm

/-! ## Lemmas about `upsert` and `archive_move` -/

theorem name_inj {src : Dir} (h : (src.map DFile.name).Nodup) :
    ∀ {a b : DFile}, a ∈ src → b ∈ src → a.name = b.name → a = b := by
  intro a b ha hb hn
  exact List.inj_on_of_nodup_map h ha hb hn

theorem unlinkName_eq_filter {d : Dir} (n : String) (h : (d.map DFile.name).Nodup) :
    unlinkName d n = d.filter fun f => !(f.name == n) := by
  induction d with
  | nil => simp [unlinkName]
  | cons f fs ih =>
    simp only [List.map_cons, List.nodup_cons] at h
    by_cases hf : f.name == n
    · have hn : f.name = n := by simpa using hf
      have : fs.filter (fun g => !(g.name == n)) = fs := by
        rw [List.filter_eq_self]
        intro g hg
        have : g.name ≠ n := fun hgn => h.1 (by
          rw [← hn] at hgn
          exact hgn ▸ List.mem_map_of_mem DFile.name hg)
        simpa using this
      simp [unlinkName, List.eraseP_cons, hf, this]
    · simp only [unlinkName, List.eraseP_cons, hf, cond_false, List.filter_cons]
      simp only [hf, Bool.not_false, if_pos]
      exact congrArg (f :: ·) (ih h.2)

theorem unlinkName_sublist (d : Dir) (n : String) : (unlinkName d n).Sublist d :=
  List.eraseP_sublist d

theorem mem_upsert_self (d : Dir) (f : DFile) : f ∈ upsert d f := by
  unfold upsert
  by_cases h : d.any fun g => g.name == f.name
  · rw [if_pos h]
    obtain ⟨g, hg, hgf⟩ := List.any_eq_true.mp h
    exact List.mem_map.mpr ⟨g, hg, by simp [hgf]⟩
  · rw [if_neg h]
    simp

theorem mem_upsert_of_ne {d : Dir} {x : DFile} (f : DFile) (hx : x ∈ d)
    (hne : x.name ≠ f.name) : x ∈ upsert d f := by
  unfold upsert
  by_cases h : d.any fun g => g.name == f.name
  · rw [if_pos h]
    exact List.mem_map.mpr ⟨x, hx, by simp [hne]⟩
  · rw [if_neg h]
    simp [hx]

theorem upsert_name_unique (d : Dir) (f : DFile) :
    ∀ h ∈ upsert d f, h.name = f.name → h = f := by
  intro x hx hname
  unfold upsert at hx
  by_cases h : d.any fun g => g.name == f.name
  · rw [if_pos h] at hx
    obtain ⟨g, _, hgx⟩ := List.mem_map.mp hx
    by_cases hg : g.name == f.name
    · rw [if_pos hg] at hgx; exact hgx.symm
    · rw [if_neg hg] at hgx
      exact absurd (by simpa [← hgx] using hname) (by simpa using hg)
  · rw [if_neg h] at hx
    rcases List.mem_append.mp hx with hx | hx
    · exact absurd hname (by
        have := List.any_eq_true.not.mp h
        push_neg at this
        simpa using this x hx)
    · simpa using hx

theorem upsert_preserves_unique {d : Dir} {x : DFile} (f : DFile)
    (hne : f.name ≠ x.name) (h : ∀ g ∈ d, g.name = x.name → g = x) :
    ∀ g ∈ upsert d f, g.name = x.name → g = x := by
  intro g hg hname
  by_cases ha : d.any fun g => g.name == f.name
  · unfold upsert at hg
    rw [if_pos ha] at hg
    obtain ⟨g0, hg0, hg0g⟩ := List.mem_map.mp hg
    by_cases hg0f : g0.name == f.name
    · rw [if_pos hg0f] at hg0g
      exact absurd (hg0g ▸ hname) hne
    · rw [if_neg hg0f] at hg0g
      exact hg0g ▸ h g0 hg0 (hg0g ▸ hname)
  · unfold upsert at hg
    rw [if_neg ha] at hg
    rcases List.mem_append.mp hg with hg | hg
    · exact h g hg hname
    · have : g = f := by simpa using hg
      exact absurd (this ▸ hname) hne

theorem mem_upsert (d : Dir) (f : DFile) : ∀ g ∈ upsert d f, g ∈ d ∨ g = f := by
  intro g hg
  unfold upsert at hg
  by_cases ha : d.any fun g => g.name == f.name
  · rw [if_pos ha] at hg
    obtain ⟨g0, hg0, hg0g⟩ := List.mem_map.mp hg
    by_cases hg0f : g0.name == f.name
    · rw [if_pos hg0f] at hg0g; exact Or.inr hg0g.symm
    · rw [if_neg hg0f] at hg0g; exact Or.inl (hg0g ▸ hg0)
  · rw [if_neg ha] at hg
    rcases List.mem_append.mp hg with hg | hg
    · exact Or.inl hg
    · exact Or.inr (by simpa using hg)

theorem archive_move_go_fst_sublist (items src dst : Dir) :
    (archive_move_go false src dst items).1.Sublist src := by
  induction items generalizing src dst with
  | nil => simp [archive_move_go]
  | cons f rest ih =>
    simp only [archive_move_go, Bool.false_eq_true, if_false]
    exact (ih (unlinkName src f.name) (upsert dst f)).trans (unlinkName_sublist src f.name)

theorem archive_move_go_fst {src : Dir} (dst : Dir) (items : Dir)
    (h : (src.map DFile.name).Nodup) :
    (archive_move_go false src dst items).1 =
      src.filter fun f => !((items.map DFile.name).contains f.name) := by
  induction items generalizing src dst with
  | nil =>
    rw [List.filter_eq_self.mpr]
    · simp [archive_move_go]
    · intro a _; simp
  | cons f rest ih =>
    have hsub : ((unlinkName src f.name).map DFile.name).Nodup :=
      h.sublist ((unlinkName_sublist src f.name).map DFile.name)
    simp only [archive_move_go, Bool.false_eq_true, if_false]
    rw [ih (upsert dst f) hsub, unlinkName_eq_filter f.name h, List.filter_filter]
    apply List.filter_congr
    intro g _
    simp only [List.map_cons, List.contains_cons, Bool.not_or, Bool.not_and,
      Bool.not_not, Bool.and_comm]

theorem archive_move_go_dst_P {items dst : Dir} {x : DFile} (src : Dir)
    (hnames : ∀ g ∈ items, g.name ≠ x.name)
    (hmem : x ∈ dst) (huni : ∀ g ∈ dst, g.name = x.name → g = x) :
    x ∈ (archive_move_go false src dst items).2.1 ∧
      ∀ g ∈ (archive_move_go false src dst items).2.1, g.name = x.name → g = x := by
  induction items generalizing src dst with
  | nil => exact ⟨hmem, huni⟩
  | cons f rest ih =>
    simp only [archive_move_go, Bool.false_eq_true, if_false]
    have hf : f.name ≠ x.name := hnames f (by simp)
    exact ih (unlinkName src f.name)
      (fun g hg => hnames g (by simp [hg]))
      (mem_upsert_of_ne f hmem (fun hx => hf hx.symm))
      (upsert_preserves_unique f hf huni)

theorem archive_move_go_dst_establish {items : Dir} {x : DFile} (src dst : Dir)
    (hnodup : (items.map DFile.name).Nodup) (hx : x ∈ items) :
    x ∈ (archive_move_go false src dst items).2.1 ∧
      ∀ g ∈ (archive_move_go false src dst items).2.1, g.name = x.name → g = x := by
  induction items generalizing src dst with
  | nil => cases hx
  | cons f rest ih =>
    simp only [List.map_cons, List.nodup_cons] at hnodup
    rcases List.mem_cons.mp hx with hx | hx
    · subst hx
      simp only [archive_move_go, Bool.false_eq_true, if_false]
      exact archive_move_go_dst_P (unlinkName src x.name)
        (fun g hg hgx => hnodup.1 (hgx ▸ List.mem_map_of_mem DFile.name hg))
        (mem_upsert_self dst x) (upsert_name_unique dst x)
    · simp only [archive_move_go, Bool.false_eq_true, if_false]
      exact ih (unlinkName src f.name) (upsert dst f) hnodup.2 hx

theorem archive_move_go_dst_mem (items src dst : Dir) :
    ∀ g ∈ (archive_move_go false src dst items).2.1, g ∈ dst ∨ g ∈ items := by
  induction items generalizing src dst with
  | nil => intro g hg; exact Or.inl hg
  | cons f rest ih =>
    intro g hg
    simp only [archive_move_go, Bool.false_eq_true, if_false] at hg
    rcases ih (unlinkName src f.name) (upsert dst f) g hg with hg | hg
    · rcases mem_upsert dst f g hg with hg | hg
      · exact Or.inl hg
      · exact Or.inr (by simp [hg])
    · exact Or.inr (by simp [hg])

theorem archive_move_pats_fst {src : Dir} (ps : List String) (dst : Dir)
    (h : (src.map DFile.name).Nodup) :
    (archive_move_pats false ps src dst).1 =
      src.filter fun f => !(ps.any fun p => matchesPat p f) := by
  induction ps generalizing src dst with
  | nil =>
    rw [List.filter_eq_self.mpr]
    · simp [archive_move_pats]
    · intro a _; simp
  | cons p ps ih =>
    simp only [archive_move_pats]
    have hstep : (archive_move_go false src dst (src.filter (matchesPat p))).1 =
        src.filter fun f => !(matchesPat p f) := by
      rw [archive_move_go_fst dst (src.filter (matchesPat p)) h]
      apply List.filter_congr
      intro g hg
      have : ((src.filter (matchesPat p)).map DFile.name).contains g.name = matchesPat p g := by
        by_cases hm : matchesPat p g
        · simp only [hm]
          exact List.elem_iff.mpr (List.mem_map_of_mem DFile.name (List.mem_filter.mpr ⟨hg, hm⟩))
        · simp only [hm]
          rw [Bool.eq_false_iff]
          intro hc
          obtain ⟨a, ha, han⟩ := List.mem_map.mp (List.elem_iff.mp hc)
          obtain ⟨ha', ham⟩ := List.mem_filter.mp ha
          exact hm (name_inj h hg ha' han.symm ▸ ham)
      rw [this]
    rw [hstep] at *
    have hnodup' : ((src.filter fun f => !(matchesPat p f)).map DFile.name).Nodup :=
      h.sublist ((List.filter_sublist src).map DFile.name)
    rw [ih _ hnodup', List.filter_filter]
    apply List.filter_congr
    intro g _
    simp [Bool.and_comm]

theorem archive_move_pats_preserve {x : DFile} (ps : List String) (src dst : Dir)
    (hsrc : ∀ g ∈ src, g.name ≠ x.name)
    (hmem : x ∈ dst) (huni : ∀ g ∈ dst, g.name = x.name → g = x) :
    x ∈ (archive_move_pats false ps src dst).2.1 ∧
      ∀ g ∈ (archive_move_pats false ps src dst).2.1, g.name = x.name → g = x := by
  induction ps generalizing src dst with
  | nil => exact ⟨hmem, huni⟩
  | cons p ps ih =>
    simp only [archive_move_pats]
    have hitems : ∀ g ∈ src.filter (matchesPat p), g.name ≠ x.name :=
      fun g hg => hsrc g (List.mem_filter.mp hg).1
    obtain ⟨h1, h2⟩ := @archive_move_go_dst_P (src.filter (matchesPat p)) dst x
      src hitems hmem huni
    exact ih (archive_move_go false src dst (src.filter (matchesPat p))).1
      (archive_move_go false src dst (src.filter (matchesPat p))).2.1
      (fun g hg => hsrc g ((archive_move_go_fst_sublist _ src dst).mem hg)) h1 h2

theorem archive_move_pats_dst {src : Dir} {f : DFile} (ps : List String) (dst : Dir)
    (h : (src.map DFile.name).Nodup) (hf : f ∈ src)
    (hmatch : (ps.any fun p => matchesPat p f) = true) :
    f ∈ (archive_move_pats false ps src dst).2.1 ∧
      ∀ g ∈ (archive_move_pats false ps src dst).2.1, g.name = f.name → g = f := by
  induction ps generalizing src dst with
  | nil => simp at hmatch
  | cons p ps ih =>
    simp only [archive_move_pats]
    by_cases hm : matchesPat p f
    · have hfitems : f ∈ src.filter (matchesPat p) := List.mem_filter.mpr ⟨hf, hm⟩
      have hnodup : ((src.filter (matchesPat p)).map DFile.name).Nodup :=
        h.sublist ((List.filter_sublist src).map DFile.name)
      obtain ⟨h1, h2⟩ := archive_move_go_dst_establish src dst hnodup hfitems
      apply archive_move_pats_preserve ps _ _ _ h1 h2
      intro g hg hgf
      have hgs : g ∈ src := (archive_move_go_fst_sublist _ src dst).mem hg
      have : g = f := name_inj h hgs hf hgf
      subst this
      rw [archive_move_go_fst dst _ h] at hg
      have := (List.mem_filter.mp hg).2
      rw [Bool.not_eq_true'] at this
      have hcontains : ((src.filter (matchesPat p)).map DFile.name).contains g.name = true :=
        List.elem_iff.mpr (List.mem_map_of_mem DFile.name hfitems)
      rw [hcontains] at this
      cases this
    · have hf' : f ∈ (archive_move_go false src dst (src.filter (matchesPat p))).1 := by
        rw [archive_move_go_fst dst _ h]
        refine List.mem_filter.mpr ⟨hf, ?_⟩
        rw [Bool.not_eq_eq_eq_not]
        simp only [Bool.not_true]
        rw [Bool.eq_false_iff]
        intro hc
        obtain ⟨a, ha, han⟩ := List.mem_map.mp (List.elem_iff.mp hc)
        obtain ⟨ha', ham⟩ := List.mem_filter.mp ha
        exact hm (name_inj h hf ha' han.symm ▸ ham)
      have hnodup' : (((archive_move_go false src dst (src.filter (matchesPat p))).1).map
          DFile.name).Nodup :=
        h.sublist ((archive_move_go_fst_sublist _ src dst).map DFile.name)
      have hmatch' : (ps.any fun q => matchesPat q f) = true := by
        rcases List.any_eq_true.mp hmatch with ⟨q, hq, hqf⟩
        rcases List.mem_cons.mp hq with hq | hq
        · exact absurd (hq ▸ hqf) (by simpa using hm)
        · exact List.any_eq_true.mpr ⟨q, hq, hqf⟩
      exact ih _ hnodup' hf' hmatch'

theorem archive_move_pats_dst_mem (ps : List String) (src dst : Dir) :
    ∀ g ∈ (archive_move_pats false ps src dst).2.1, g ∈ dst ∨ g ∈ src := by
  induction ps generalizing src dst with
  | nil => intro g hg; exact Or.inl hg
  | cons p ps ih =>
    intro g hg
    simp only [archive_move_pats] at hg
    rcases ih _ _ g hg with hg' | hg'
    · rcases archive_move_go_dst_mem _ src dst g hg' with hg'' | hg''
      · exact Or.inl hg''
      · exact Or.inr (List.mem_filter.mp hg'').1
    · exact Or.inr ((archive_move_go_fst_sublist _ src dst).mem hg')

/-! ## Lemmas about `get_directory_size` on trees -/

mutual

theorem rglobE_size_decomp (e : Entry) :
    ((rglobE e).map Entry.stSize).sum = fileBytesE e + dirStatE e := by
  cases e with
  | file n m c => simp [rglobE, fileBytesE, dirStatE, Entry.stSize]
  | subdir n m s ch =>
    have := rglobL_size_decomp ch
    simp only [rglobE, fileBytesE, dirStatE, Entry.stSize, List.map_cons, List.sum_cons, this]
    omega

theorem rglobL_size_decomp (es : List Entry) :
    ((rglobL es).map Entry.stSize).sum = fileBytesL es + dirStatL es := by
  cases es with
  | nil => simp [rglobL, fileBytesL, dirStatL]
  | cons e es =>
    have h1 := rglobE_size_decomp e
    have h2 := rglobL_size_decomp es
    simp only [rglobL, fileBytesL, dirStatL, List.map_append, List.sum_append, h1, h2]
    omega

end

theorem get_directory_size_decomp (es : List Entry) :
    get_directory_size es = fileBytesL es + dirStatL es :=
  rglobL_size_decomp es

theorem dirStatL_eq_zero {es : List Entry} (h : es.all Entry.isFile) : dirStatL es = 0 := by
  induction es with
  | nil => rfl
  | cons e es ih =>
    simp only [List.all_cons, Bool.and_eq_true] at h
    cases e with
    | file n m c => simpa [dirStatL, dirStatE] using ih h.2
    | subdir n m s ch => simp [Entry.isFile] at h

theorem get_directory_size_flatOnly {es : List Entry} (h : es.all Entry.isFile) :
    get_directory_size es = fileBytesL es := by
  rw [get_directory_size_decomp, dirStatL_eq_zero h, Nat.add_zero]

/-- On a flat directory of regular files, the tree-level
`get_directory_size` agrees with the flat pipeline size `dirSize`. -/
theorem get_directory_size_toEntry (d : Dir) :
    get_directory_size (d.map DFile.toEntry) = dirSize d := by
  induction d with
  | nil => rfl
  | cons f fs ih =>
    simp only [get_directory_size, List.map_cons, rglobL, DFile.toEntry, rglobE,
      List.map_append, List.sum_append] at *
    simp [Entry.stSize, dirSize, DFile.size, ih, dirSize, List.map_cons, List.sum_cons]

/-! ## Dry-run behaviour of the engine steps -/

theorem archive_move_go_dry (src dst items : Dir) :
    archive_move_go true src dst items = (src, dst, []) := by
  induction items with
  | nil => rfl
  | cons f rest ih => simpa [archive_move_go] using ih

theorem archive_move_pats_dry (ps : List String) (src dst : Dir) :
    archive_move_pats true ps src dst = (src, dst, []) := by
  induction ps generalizing src dst with
  | nil => rfl
  | cons p ps ih => simp [archive_move_pats, archive_move_go_dry, ih]

theorem archive_delete_go_dry (src items : Dir) :
    archive_delete_go true src items = (src, []) := by
  induction items with
  | nil => rfl
  | cons f rest ih => simpa [archive_delete_go] using ih

theorem archive_delete_pats_dry (ps : List String) (src : Dir) :
    archive_delete_pats true ps src = (src, []) := by
  induction ps generalizing src with
  | nil => rfl
  | cons p ps ih => simp [archive_delete_pats, archive_delete_go_dry, ih]

theorem loop_delete_dry {fl : Flags} (h : fl.dryLoop = true) (n : Nat) (d : Dir) :
    loop_delete fl n d = .ok (d, []) := by
  unfold loop_delete
  rw [h]
  cases hit : make_directory_iterator d with
  | nil =>
    have hd : d = [] := by
      have hp := sortByMtime_perm d
      rw [show sortByMtime d = make_directory_iterator d from rfl, hit] at hp
      exact hp.symm.eq_nil
    subst hd
    simp [loop_delete_go, dirSize]
  | cons f rest =>
    by_cases hs : dirSize d ≤ n <;> simp [loop_delete_go, hs]

/-! ## Pipeline lemmas -/

theorem erase_fresh_tempDir {w : World} (hwf : TempWF w) :
    (w.tempDirs ++ [w.nextTemp]).erase w.nextTemp = w.tempDirs := by
  have hnotin : w.nextTemp ∉ w.tempDirs := fun hmem => absurd (hwf _ hmem) (lt_irrefl _)
  rw [List.erase_append_right _ hnotin, List.erase_cons_head, List.append_nil]

/-- Behaviour of `archive` when the destination path is missing or not a directory:
the `ValueError` is raised before any mount or filesystem mutation. -/
theorem archive_dstInvalid {w : World} (fl : Flags) (spec : SourceSpec)
    (dspec : DestinationSpec) (env : Env) (h : w.dstIsDir = false) :
    archive fl spec dspec env w =
      ⟨.error (.valueError destMissingMsg), env.deviceFiles, w, []⟩ := by
  simp [archive, h]

/-- Behaviour of `archive` when the location oneof is unset: the scope's setup raises a
`ValueError` before any filesystem mutation. -/
theorem archive_unsetLocation {w : World} {spec : SourceSpec} (fl : Flags)
    (dspec : DestinationSpec) (env : Env) (h : w.dstIsDir = true)
    (hloc : spec.location = .unset) :
    archive fl spec dspec env w =
      ⟨.error (.valueError "Unsupported SourceSpec.location: None"),
        env.deviceFiles, w, []⟩ := by
  simp [archive, h, setup_source_spec, hloc]

/-- In full dry-run mode a storage-device `archive` call succeeds, leaves
device and destination untouched, and the only recorded side effects are
creating and removing the scope's temporary directory. -/
theorem archive_dry_eq {fl : Flags} {w : World} {spec : SourceSpec} {sd : StorageDevice}
    (hdry : fl.dry_run = true) (hdst : w.dstIsDir = true)
    (hloc : spec.location = .storage_device sd) (dspec : DestinationSpec) (env : Env) :
    archive fl spec dspec env w =
      ⟨.ok (), env.deviceFiles,
        ⟨w.dst, w.dstIsDir, (w.tempDirs ++ [w.nextTemp]).erase w.nextTemp, w.nextTemp + 1⟩,
        [Action.mkdtemp w.nextTemp, Action.rmdir w.nextTemp]⟩ := by
  have hloop : fl.dryLoop = true := by simp [Flags.dryLoop, hdry]
  simp [archive, hdst, setup_source_spec, hloc, mount, umount, run_process, hdry,
    archive_move, hloop, archive_move_pats_dry, loop_delete_dry hloop,
    archive_delete, archive_delete_pats_dry, teardown_source_spec]

/-- In full dry-run mode the whole driver loop spawns no process, neither
copies, deletes nor moves any file, and leaves the destination, every
device and the set of temp directories unchanged. -/
theorem processSources_dry {fl : Flags} (hdry : fl.dry_run = true) (dspec : DestinationSpec) :
    ∀ (entries : List (SourceSpec × Env)) (w : World), TempWF w →
    (processSources fl dspec entries w).world.dst = w.dst ∧
    (processSources fl dspec entries w).world.tempDirs = w.tempDirs ∧
    (processSources fl dspec entries w).devices = entries.map (fun e => e.2.deviceFiles) ∧
    ∀ a ∈ (processSources fl dspec entries w).trace,
      a.isSpawn = false ∧ a.isFileMutation = false := by
  intro entries
  induction entries with
  | nil => intro w _; exact ⟨rfl, rfl, rfl, by simp [processSources]⟩
  | cons e rest ih =>
    intro w hwf
    obtain ⟨spec, env⟩ := e
    by_cases hdst : w.dstIsDir = false
    · rw [show processSources fl dspec ((spec, env) :: rest) w =
        ⟨.error (.valueError destMissingMsg),
          env.deviceFiles :: rest.map (fun x => x.2.deviceFiles), w, []⟩ from by
        simp [processSources, archive_dstInvalid fl spec dspec env hdst]]
      exact ⟨rfl, rfl, rfl, by simp⟩
    · have hdst' : w.dstIsDir = true := by
        cases h : w.dstIsDir
        · exact absurd h hdst
        · rfl
      cases hloc : spec.location with
      | unset =>
        rw [show processSources fl dspec ((spec, env) :: rest) w =
          ⟨.error (.valueError "Unsupported SourceSpec.location: None"),
            env.deviceFiles :: rest.map (fun x => x.2.deviceFiles), w, []⟩ from by
          simp [processSources, archive_unsetLocation fl dspec env hdst' hloc]]
        exact ⟨rfl, rfl, rfl, by simp⟩
      | storage_device sd =>
        have harch := archive_dry_eq hdry hdst' hloc dspec env
        rw [erase_fresh_tempDir hwf] at harch
        have hwf' : TempWF (⟨w.dst, w.dstIsDir, w.tempDirs, w.nextTemp + 1⟩ : World) :=
          fun t ht => Nat.lt_succ_of_lt (hwf t ht)
        obtain ⟨ih1, ih2, ih3, ih4⟩ := ih _ hwf'
        rw [show processSources fl dspec ((spec, env) :: rest) w =
          ⟨(processSources fl dspec rest ⟨w.dst, w.dstIsDir, w.tempDirs, w.nextTemp + 1⟩).result,
            env.deviceFiles ::
              (processSources fl dspec rest ⟨w.dst, w.dstIsDir, w.tempDirs, w.nextTemp + 1⟩).devices,
            (processSources fl dspec rest ⟨w.dst, w.dstIsDir, w.tempDirs, w.nextTemp + 1⟩).world,
            [Action.mkdtemp w.nextTemp, Action.rmdir w.nextTemp] ++
              (processSources fl dspec rest ⟨w.dst, w.dstIsDir, w.tempDirs, w.nextTemp + 1⟩).trace⟩
          from by simp [processSources, harch]]
        refine ⟨ih1, ih2, by simp [ih3], ?_⟩
        intro a hmem
        rcases List.mem_append.mp hmem with h | h
        · rcases List.mem_cons.mp h with h | h
          · subst h; exact ⟨rfl, rfl⟩
          · rcases List.mem_singleton.mp h with h
            subst h; exact ⟨rfl, rfl⟩
        · exact ih4 a h

theorem run_process_fst (fl : Flags) (args : List String) (e : Nat) :
    (run_process fl args e).1 = effExit fl e := by
  unfold run_process effExit
  cases fl.dry_run <;> simp

theorem mount_eq (fl : Flags) (device mountPath : String) (options : Option (List String))
    (e : Nat) :
    mount fl device mountPath options e =
      (if effExit fl e ≠ 0 then
        (.error (.mountError ("Mount failed for " ++ device ++ " <- " ++ mountPath ++ ".")),
          (run_process fl (mountArgs device mountPath options) e).2)
      else (.ok (), (run_process fl (mountArgs device mountPath options) e).2)) := by
  cases hfl : fl.dry_run <;> simp [mount, run_process, effExit, hfl]

theorem umount_eq (fl : Flags) (mountPath : String) (e : Nat) :
    umount fl mountPath e =
      (if effExit fl e ≠ 0 then
        (.error (.runtimeError ("Umount failed for " ++ mountPath ++ ".")),
          (run_process fl ["sudo", "umount", mountPath] e).2)
      else (.ok (), (run_process fl ["sudo", "umount", mountPath] e).2)) := by
  cases hfl : fl.dry_run <;> simp [umount, run_process, effExit, hfl]

/-- Behaviour of `archive` when the destination is valid, the source is a storage
device, and the mount command (effectively) fails: the `MountError`
propagates out of the scope's `__enter__`, so neither the engine steps nor
the teardown run; the freshly created temp directory stays in the world. -/
theorem archive_mountFail_eq {fl : Flags} {w : World} {spec : SourceSpec} {sd : StorageDevice}
    (dspec : DestinationSpec) (env : Env) (hdst : w.dstIsDir = true)
    (hloc : spec.location = .storage_device sd) (hmt : effExit fl env.mountExit ≠ 0) :
    archive fl spec dspec env w =
      ⟨.error (.mountError ("Mount failed for " ++ devicePath sd ++ " <- " ++
          tempPath w.nextTemp ++ ".")),
        env.deviceFiles,
        ⟨w.dst, w.dstIsDir, w.tempDirs ++ [w.nextTemp], w.nextTemp + 1⟩,
        Action.mkdtemp w.nextTemp ::
          (run_process fl (mountArgs (devicePath sd) (tempPath w.nextTemp)
            (some sd.mount_options)) env.mountExit).2⟩ := by
  simp only [archive, hdst, Bool.true_eq_false, if_false, setup_source_spec, hloc,
    mount_eq, if_pos hmt]

/-- Behaviour of `archive` when the destination is valid, the source is a storage
device, the mount command succeeds and `loop_delete` returns normally:
the three engine steps run in order on the scope's path, then the
teardown. -/
theorem archive_mountOk_eq {fl : Flags} {w : World} {spec : SourceSpec} {sd : StorageDevice}
    {ld : Dir × List (Nat × String)} (dspec : DestinationSpec) (env : Env)
    (hdst : w.dstIsDir = true) (hloc : spec.location = .storage_device sd)
    (hmt : effExit fl env.mountExit = 0)
    (hld : loop_delete fl dspec.loop_size
      (archive_move fl spec.patterns env.deviceFiles w.dst).2.1 = .ok ld) :
    archive fl spec dspec env w =
      ⟨(match (teardown_source_spec fl spec env (some w.nextTemp)
            ⟨ld.1, w.dstIsDir, w.tempDirs ++ [w.nextTemp], w.nextTemp + 1⟩).result with
        | .error e2 => .error e2
        | .ok _ => .ok ()),
        (archive_delete fl spec.delete_patterns
          (archive_move fl spec.patterns env.deviceFiles w.dst).1).1,
        (teardown_source_spec fl spec env (some w.nextTemp)
          ⟨ld.1, w.dstIsDir, w.tempDirs ++ [w.nextTemp], w.nextTemp + 1⟩).world,
        (Action.mkdtemp w.nextTemp ::
          (run_process fl (mountArgs (devicePath sd) (tempPath w.nextTemp)
            (some sd.mount_options)) env.mountExit).2) ++
        (archive_move fl spec.patterns env.deviceFiles w.dst).2.2 ++
        ld.2.map (fun ev => Action.unlink ev.2) ++
        (archive_delete fl spec.delete_patterns
          (archive_move fl spec.patterns env.deviceFiles w.dst).1).2 ++
        (teardown_source_spec fl spec env (some w.nextTemp)
          ⟨ld.1, w.dstIsDir, w.tempDirs ++ [w.nextTemp], w.nextTemp + 1⟩).trace⟩ := by
  have hmt2 : ¬(effExit fl env.mountExit ≠ 0) := by simp [hmt]
  simp only [archive, hdst, Bool.true_eq_false, if_false, setup_source_spec, hloc,
    mount_eq, if_neg hmt2, hld]

theorem teardown_tempDirs (fl : Flags) (spec : SourceSpec) (env : Env) (tid : Nat)
    (w' : World) :
    (teardown_source_spec fl spec env (some tid) w').world.tempDirs = w'.tempDirs ∨
    (teardown_source_spec fl spec env (some tid) w').world.tempDirs = w'.tempDirs.erase tid := by
  cases hloc : spec.location with
  | storage_device sd =>
    cases hu : (umount fl (tempPath tid) env.umountExit).1 with
    | error e => exact Or.inl (by simp [teardown_source_spec, hloc, hu])
    | ok u => exact Or.inr (by simp [teardown_source_spec, hloc, hu])
  | unset => exact Or.inl (by simp [teardown_source_spec, hloc])

/-- Existing temp directories survive one `archive` call, the temp-dir
well-formedness invariant is preserved, and the allocator counter never
decreases. -/
theorem archive_tempDirs (fl : Flags) (spec : SourceSpec) (dspec : DestinationSpec)
    (env : Env) (w : World) (hwf : TempWF w) :
    (∀ t ∈ w.tempDirs, t ∈ (archive fl spec dspec env w).world.tempDirs) ∧
    TempWF (archive fl spec dspec env w).world ∧
    w.nextTemp ≤ (archive fl spec dspec env w).world.nextTemp := by
  by_cases hdst : w.dstIsDir = false
  · rw [archive_dstInvalid fl spec dspec env hdst]
    exact ⟨fun t ht => ht, hwf, Nat.le_refl _⟩
  · have hdst' : w.dstIsDir = true := by
      cases h : w.dstIsDir
      · exact absurd h hdst
      · rfl
    cases hloc : spec.location with
    | unset =>
      rw [archive_unsetLocation fl dspec env hdst' hloc]
      exact ⟨fun t ht => ht, hwf, Nat.le_refl _⟩
    | storage_device sd =>
      have hwf1 : TempWF (⟨w.dst, w.dstIsDir, w.tempDirs ++ [w.nextTemp],
          w.nextTemp + 1⟩ : World) := by
        intro t ht
        rcases List.mem_append.mp ht with h | h
        · exact Nat.lt_succ_of_lt (hwf t h)
        · rw [List.mem_singleton.mp h]; exact Nat.lt_succ_self _
      by_cases hmt : effExit fl env.mountExit ≠ 0
      · rw [archive_mountFail_eq dspec env hdst' hloc hmt]
        exact ⟨fun t ht => List.mem_append.mpr (Or.inl ht), hwf1, Nat.le_succ _⟩
      · have hmt' : effExit fl env.mountExit = 0 := by omega
        obtain ⟨d', evs, hld, -, -⟩ := loop_delete_ok fl dspec.loop_size
          (archive_move fl spec.patterns env.deviceFiles w.dst).2.1
        rw [archive_mountOk_eq dspec env hdst' hloc hmt' hld]
        dsimp only
        have hcases := teardown_tempDirs fl spec env w.nextTemp
          ⟨(d', evs).1, w.dstIsDir, w.tempDirs ++ [w.nextTemp], w.nextTemp + 1⟩
        dsimp only at hcases
        have hntd : (teardown_source_spec fl spec env (some w.nextTemp)
            ⟨(d', evs).1, w.dstIsDir, w.tempDirs ++ [w.nextTemp], w.nextTemp + 1⟩).world.nextTemp =
            w.nextTemp + 1 := by
          cases hu : (umount fl (tempPath w.nextTemp) env.umountExit).1 with
          | error e => simp [teardown_source_spec, hloc, hu]
          | ok u => simp [teardown_source_spec, hloc, hu]
        have herase : (w.tempDirs ++ [w.nextTemp]).erase w.nextTemp = w.tempDirs :=
          erase_fresh_tempDir hwf
        rcases hcases with hc | hc
        · refine ⟨fun t ht => ?_, fun t ht => ?_, ?_⟩
          · rw [hc]; exact List.mem_append.mpr (Or.inl ht)
          · rw [hntd]; rw [hc] at ht; exact hwf1 t ht
          · rw [hntd]; exact Nat.le_succ _
        · rw [herase] at hc
          refine ⟨fun t ht => ?_, fun t ht => ?_, ?_⟩
          · rw [hc]; exact ht
          · rw [hntd]; rw [hc] at ht; exact Nat.lt_succ_of_lt (hwf t ht)
          · rw [hntd]; exact Nat.le_succ _

/-- Existing temp directories survive the whole driver loop: once a scope
leaks its temp directory, nothing later removes it. -/
theorem processSources_tempDirs (fl : Flags) (dspec : DestinationSpec) :
    ∀ (entries : List (SourceSpec × Env)) (w : World), TempWF w →
    (∀ t ∈ w.tempDirs, t ∈ (processSources fl dspec entries w).world.tempDirs) := by
  intro entries
  induction entries with
  | nil => intro w _ t ht; exact ht
  | cons e rest ih =>
    intro w hwf t ht
    obtain ⟨spec, env⟩ := e
    obtain ⟨hmem, hwf', _⟩ := archive_tempDirs fl spec dspec env w hwf
    cases hres : (archive fl spec dspec env w).result with
    | ok u =>
      cases u
      simpa [processSources, hres] using ih _ hwf' t (hmem t ht)
    | error err =>
      cases err with
      | mountError m => simpa [processSources, hres] using ih _ hwf' t (hmem t ht)
      | stopIteration => simpa [processSources, hres] using hmem t ht
      | runtimeError m => simpa [processSources, hres] using hmem t ht
      | valueError m => simpa [processSources, hres] using hmem t ht
      | attributeError m => simpa [processSources, hres] using hmem t ht
      | isADirectoryError m => simpa [processSources, hres] using hmem t ht
      | notADirectoryError m => simpa [processSources, hres] using hmem t ht
      | fileNotFoundError m => simpa [processSources, hres] using hmem t ht

/-- One driver-loop step whose `archive` raised `MountError`: the warning
is logged (not modelled) and the loop continues with the remaining
sources from the world the failed call left behind. -/
theorem processSources_cons_continue {fl : Flags} {dspec : DestinationSpec}
    {spec : SourceSpec} {env : Env} {rest : List (SourceSpec × Env)} {w : World} {m : String}
    (h : (archive fl spec dspec env w).result = .error (.mountError m)) :
    processSources fl dspec ((spec, env) :: rest) w =
      ⟨(processSources fl dspec rest (archive fl spec dspec env w).world).result,
        (archive fl spec dspec env w).device ::
          (processSources fl dspec rest (archive fl spec dspec env w).world).devices,
        (processSources fl dspec rest (archive fl spec dspec env w).world).world,
        (archive fl spec dspec env w).trace ++
          (processSources fl dspec rest (archive fl spec dspec env w).world).trace⟩ := by
  simp [processSources, h]

/-- One driver-loop step whose `archive` raised anything other than
`MountError`: the exception propagates and the remaining sources are left
unprocessed. -/
theorem processSources_cons_fatal {fl : Flags} {dspec : DestinationSpec}
    {spec : SourceSpec} {env : Env} {rest : List (SourceSpec × Env)} {w : World}
    {err : PyErr} (h : (archive fl spec dspec env w).result = .error err)
    (hm : ∀ m, err ≠ .mountError m) :
    processSources fl dspec ((spec, env) :: rest) w =
      ⟨.error err,
        (archive fl spec dspec env w).device :: rest.map (fun x => x.2.deviceFiles),
        (archive fl spec dspec env w).world, (archive fl spec dspec env w).trace⟩ := by
  cases err with
  | mountError m => exact absurd rfl (hm m)
  | stopIteration => simp [processSources, h]
  | runtimeError m => simp [processSources, h]
  | valueError m => simp [processSources, h]
  | attributeError m => simp [processSources, h]
  | isADirectoryError m => simp [processSources, h]
  | notADirectoryError m => simp [processSources, h]
  | fileNotFoundError m => simp [processSources, h]

/-! ## Tree-level eviction lemmas -/

theorem insertMtimeP_perm (x : EntryPath × Entry) (l : List (EntryPath × Entry)) :
    List.Perm (insertMtimeP x l) (x :: l) := by
  induction l with
  | nil => simp [insertMtimeP]
  | cons y ys ih =>
    by_cases h : y.2.stMtime ≤ x.2.stMtime
    · simp only [insertMtimeP, if_pos h]
      exact .trans (.cons y ih) (List.Perm.swap x y ys)
    · simp [insertMtimeP, if_neg h]

theorem sortByMtimeP_perm (l : List (EntryPath × Entry)) :
    List.Perm (sortByMtimeP l) l := by
  induction l with
  | nil => simp [sortByMtimeP]
  | cons x xs ih => exact .trans (insertMtimeP_perm x (sortByMtimeP xs)) (.cons x ih)

/-- On a directory whose children are all regular files, the
path-carrying `rglob` yields exactly those files, each under the
single-component path of its name. -/
theorem rglobPL_files {es : List Entry} (hf : es.all Entry.isFile = true)
    (pre : EntryPath) :
    rglobPL pre es = es.map fun e => (pre ++ [e.name], e) := by
  induction es with
  | nil => simp [rglobPL]
  | cons e es ih =>
    simp only [List.all_cons, Bool.and_eq_true] at hf
    cases e with
    | file n m c => simp [rglobPL, rglobPE, ih hf.2, Entry.name]
    | subdir n m sz ch => simp [Entry.isFile] at hf

theorem eraseP_entry_map_name (es : List Entry) (n : String) :
    (es.eraseP fun e => e.name == n).map Entry.name = (es.map Entry.name).erase n := by
  induction es with
  | nil => simp
  | cons e es ih =>
    by_cases h : e.name == n
    · simp [List.eraseP_cons, h, List.erase_cons, h]
    · simpa [List.eraseP_cons, h, List.erase_cons, h] using ih

theorem all_isFile_eraseP {es : List Entry} (hf : es.all Entry.isFile = true)
    (p : Entry → Bool) : (es.eraseP p).all Entry.isFile = true := by
  simp only [List.all_eq_true] at hf
  simp only [List.all_eq_true]
  intro x hx
  exact hf x ((List.eraseP_sublist es).mem hx)

/-- On a directory whose children are all regular files, `unlink` of a
present single-component path succeeds and removes that file. -/
theorem unlinkPath_files {es : List Entry} (hf : es.all Entry.isFile = true) {n : String}
    (hmem : n ∈ es.map Entry.name) :
    unlinkPath es [n] = .ok (es.eraseP fun e => e.name == n) := by
  induction es with
  | nil => simp at hmem
  | cons e es ih =>
    simp only [List.all_cons, Bool.and_eq_true] at hf
    by_cases he : e.name = n
    · cases e with
      | file nm m c =>
        have hb : ((Entry.file nm m c).name == n) = true := by simp [he]
        simp [unlinkPath, he, List.eraseP_cons, hb]
      | subdir nm m sz ch => simp [Entry.isFile] at hf
    · have hmem' : n ∈ es.map Entry.name := by
        simp only [List.map_cons, List.mem_cons] at hmem
        rcases hmem with h | h
        · exact absurd h.symm he
        · exact h
      have hb : (e.name == n) = false := by simp [he]
      cases e with
      | file nm m c =>
        simp only [Entry.name] at he hb
        simp [unlinkPath, Entry.name, he, ih hf.2 hmem', List.eraseP_cons, hb]
      | subdir nm m sz ch => simp [Entry.isFile] at hf

/-- Core invariant of tree-level eviction on file-only directories: as
long as the directory's entry names are a permutation of the names of
the snapshot's remaining entries and every snapshot path is the
single-component name of its entry, the loop terminates normally. -/
theorem loop_delete_tree_go_ok (dry : Bool) (loop_size : Nat) :
    ∀ (snap : List (EntryPath × Entry)) (es : List Entry),
      es.all Entry.isFile = true →
      List.Perm (es.map Entry.name) (snap.map fun pe => pe.2.name) →
      (∀ pe ∈ snap, pe.1 = [pe.2.name]) →
      ∃ out, loop_delete_tree_go dry loop_size es snap = .ok out := by
  intro snap
  induction snap with
  | nil =>
    intro es _ hperm _
    have hnil : es.map Entry.name = [] := List.Perm.eq_nil (by simpa using hperm)
    have hes : es = [] := by
      cases es with
      | nil => rfl
      | cons e es => simp at hnil
    subst hes
    exact ⟨[], by simp [loop_delete_tree_go, get_directory_size, rglobL]⟩
  | cons pe rest ih =>
    intro es hf hperm hpaths
    by_cases hs : get_directory_size es ≤ loop_size
    · exact ⟨es, by simp [loop_delete_tree_go, hs]⟩
    · rcases Bool.eq_false_or_eq_true dry with hdry | hdry
      · subst hdry
        exact ⟨es, by simp [loop_delete_tree_go, hs]⟩
      · subst hdry
        have hn : pe.2.name ∈ es.map Entry.name := hperm.mem_iff.mpr
          (List.mem_map_of_mem (fun pe => pe.2.name) (List.mem_cons_self pe rest))
        have hpath : pe.1 = [pe.2.name] := hpaths pe (List.mem_cons_self pe rest)
        have hunlink := unlinkPath_files hf hn
        have hf' : ((es.eraseP fun e => e.name == pe.2.name).all Entry.isFile) = true :=
          all_isFile_eraseP hf _
        have hperm' : List.Perm
            ((es.eraseP fun e => e.name == pe.2.name).map Entry.name)
            (rest.map fun pe => pe.2.name) := by
          rw [eraseP_entry_map_name]
          have := hperm.erase pe.2.name
          simpa [List.erase_cons_head] using this
        obtain ⟨out, hout⟩ := ih _ hf' hperm' (fun q hq => hpaths q (List.mem_cons_of_mem pe hq))
        exact ⟨out, by simp [loop_delete_tree_go, hs, hpath, hunlink, hout]⟩

/-! ## Claims -/

/-- Counterexample to C1 as stated: `loop_delete` does not terminate
normally on *every* destination directory.  Both the size guard and the
eviction snapshot run over `path.rglob('*')`, which yields directory
entries too; on a destination holding one empty subdirectory whose inode
reports 4096 bytes, with `loop_size = 2`, the guard computes 4096 > 2,
`next` yields the subdirectory, and `deletion_candidate.unlink()` raises
`IsADirectoryError` instead of stopping without error. -/
theorem claim1_counterexample :
    loop_delete_tree flReal 2 [Entry.subdir "d" 0 4096 []] =
      .error (.isADirectoryError "Is a directory") := by
  simp [loop_delete_tree, make_directory_iterator_tree, rglobPL, rglobPE, sortByMtimeP,
    insertMtimeP, loop_delete_tree_go, unlinkPath, get_directory_size, rglobL, rglobE,
    Entry.stSize, Entry.name, Flags.dryLoop, flReal]

/-- C1 amended: for every destination directory all of whose reachable
entries are regular files (the only destination state the pipeline itself
produces) and every non-negative `loop_size`, `loop_delete` terminates
normally: the oldest-first snapshot is never exhausted while the size
still exceeds `loop_size` (whenever the guard passes, at least one
snapshot entry is still present), no error is raised, and the loop cannot
run forever (its recursion is bounded by the snapshot).  On destinations
containing directory entries the call can instead raise, as the
counterexample shows. -/
theorem claim1_amended (fl : Flags) (loop_size : Nat) (es : List Entry)
    (hfiles : es.all Entry.isFile = true) :
    ∃ out, loop_delete_tree fl loop_size es = .ok out := by
  unfold loop_delete_tree make_directory_iterator_tree
  have h1 : rglobPL [] es = es.map fun e => ([e.name], e) := by
    simpa using rglobPL_files hfiles []
  apply loop_delete_tree_go_ok
  · exact hfiles
  · rw [h1]
    have h3 := (sortByMtimeP_perm (es.map fun e => ([e.name], e))).map
      (fun pe => pe.2.name)
    have h4 : ((es.map fun e => ([e.name], e)).map fun pe => pe.2.name) =
        es.map Entry.name := by
      simp [List.map_map, Function.comp]
    rw [h4] at h3
    exact h3.symm
  · intro pe hpe
    have hmem : pe ∈ es.map fun e => ([e.name], e) := by
      have := (sortByMtimeP_perm (rglobPL [] es)).mem_iff.mp hpe
      rwa [h1] at this
    obtain ⟨e, _, heq⟩ := List.mem_map.mp hmem
    rw [← heq]

/-- Witness for C1 amended at a concrete file-only destination. -/
theorem claim1_witness :
    (([Entry.file "a.MP4" 0 "xy", Entry.file "b.MP4" 1 "zw"] : List Entry).all
      Entry.isFile = true) ∧
    ∃ out, loop_delete_tree flReal 2
      [Entry.file "a.MP4" 0 "xy", Entry.file "b.MP4" 1 "zw"] = .ok out :=
  ⟨rfl, claim1_amended flReal 2 _ rfl⟩

/-- C2: in non-dry-run mode `loop_delete` completes with
`total_size(destination) ≤ loop_size` (which subsumes "or the destination
is empty"), and it never deletes a file at a point where the directory
size is already within the quota: every recorded deletion event carries
the size computed at the guard just before that deletion, and that size
strictly exceeds `loop_size`. -/
theorem claim2_loop_delete_postcondition (loop_size : Nat) (d : Dir) :
    ∃ d' evs, loop_delete flReal loop_size d = .ok (d', evs) ∧
      (dirSize d' ≤ loop_size ∨ d' = []) ∧
      ∀ ev ∈ evs, loop_size < ev.1 := by
  obtain ⟨d', evs, heq, hle, hev⟩ := loop_delete_ok flReal loop_size d
  exact ⟨d', evs, heq, Or.inl (hle rfl), hev⟩

/-- C3: in non-dry-run mode `archive_move` moves exactly the source files
matching at least one pattern: the remaining source directory is exactly
the non-matching files (so every matching file is gone from the source
and every non-matching file is untouched), every matching file itself —
same name, same content, same modification time — is present in the
destination afterwards, and the destination holds nothing beyond its
original files and the moved ones. -/
theorem claim3_archive_move_exact (patterns : List String) (src dst : Dir)
    (hnodup : (src.map DFile.name).Nodup) :
    (archive_move flReal patterns src dst).1 =
      src.filter (fun f => !(patterns.any fun p => matchesPat p f)) ∧
    (∀ f ∈ src, (patterns.any fun p => matchesPat p f) = true →
      f ∈ (archive_move flReal patterns src dst).2.1 ∧
      ∀ g ∈ (archive_move flReal patterns src dst).1, g.name ≠ f.name) ∧
    (∀ g ∈ (archive_move flReal patterns src dst).2.1, g ∈ dst ∨ g ∈ src) := by
  have e1 : archive_move flReal patterns src dst = archive_move_pats false patterns src dst := rfl
  rw [e1]
  refine ⟨archive_move_pats_fst patterns dst hnodup, ?_,
    archive_move_pats_dst_mem patterns src dst⟩
  intro f hf hany
  refine ⟨(archive_move_pats_dst patterns dst hnodup hf hany).1, ?_⟩
  intro g hg hgname
  rw [archive_move_pats_fst patterns dst hnodup] at hg
  obtain ⟨hgs, hgp⟩ := List.mem_filter.mp hg
  have hgf : g = f := name_inj hnodup hgs hf hgname
  subst hgf
  rw [hany] at hgp
  simp at hgp

/-- Witness for C3 at a concrete two-file source: the `.MP4` file is
moved, the `.THM` file stays. -/
theorem claim3_witness :
    (([⟨"a.MP4", 0, "xy"⟩, ⟨"b.THM", 1, "z"⟩] : Dir).map DFile.name).Nodup ∧
    (archive_move flReal ["*.MP4"] [⟨"a.MP4", 0, "xy"⟩, ⟨"b.THM", 1, "z"⟩] []).1 =
      [⟨"b.THM", 1, "z"⟩] := by
  refine ⟨by decide, ?_⟩
  have h := (claim3_archive_move_exact ["*.MP4"]
    [⟨"a.MP4", 0, "xy"⟩, ⟨"b.THM", 1, "z"⟩] [] (by decide)).1
  rw [h]
  decide

/-- C10: when the destination already holds a file with the same name as
a matched source file, `archive_move` silently overwrites it: afterwards
the moved source file (same name, content and mtime) is in the
destination and the old same-named destination file is not. -/
theorem claim10_archive_move_overwrites (patterns : List String) (src dst : Dir)
    (f g : DFile) (p : String) (hnodup : (src.map DFile.name).Nodup)
    (hf : f ∈ src) (hp : p ∈ patterns) (hm : matchesPat p f = true)
    (_hg : g ∈ dst) (hname : g.name = f.name) (hne : g ≠ f) :
    f ∈ (archive_move flReal patterns src dst).2.1 ∧
    g ∉ (archive_move flReal patterns src dst).2.1 := by
  have e1 : archive_move flReal patterns src dst = archive_move_pats false patterns src dst := rfl
  rw [e1]
  have hany : (patterns.any fun q => matchesPat q f) = true :=
    List.any_eq_true.mpr ⟨p, hp, hm⟩
  obtain ⟨hmem, huni⟩ := archive_move_pats_dst patterns dst hnodup hf hany
  exact ⟨hmem, fun hgmem => hne (huni g hgmem hname)⟩

/-- Witness for C10 at a concrete input: the destination's old
`a.MP4` is replaced by the source's `a.MP4`. -/
theorem claim10_witness :
    (⟨"a.MP4", 5, "new"⟩ : DFile) ∈
      (archive_move flReal ["*.MP4"] [⟨"a.MP4", 5, "new"⟩] [⟨"a.MP4", 1, "old"⟩]).2.1 ∧
    (⟨"a.MP4", 1, "old"⟩ : DFile) ∉
      (archive_move flReal ["*.MP4"] [⟨"a.MP4", 5, "new"⟩] [⟨"a.MP4", 1, "old"⟩]).2.1 :=
  claim10_archive_move_overwrites ["*.MP4"] [⟨"a.MP4", 5, "new"⟩] [⟨"a.MP4", 1, "old"⟩]
    ⟨"a.MP4", 5, "new"⟩ ⟨"a.MP4", 1, "old"⟩ "*.MP4" (by decide) (by decide) (by decide)
    (by decide) (by decide) (by decide) (by decide)

/-- Counterexample to C8 as stated: `get_directory_size` sums
`stat().st_size` over *every* entry `rglob('*')` yields, directories
included, so on a destination containing one empty subdirectory whose
inode reports 4096 bytes (the usual ext4 value) it returns 4096, while
the sum of the byte lengths of the reachable regular files is 0. -/
theorem claim8_counterexample :
    get_directory_size [Entry.subdir "d" 0 4096 []] ≠
      fileBytesL [Entry.subdir "d" 0 4096 []] := by
  simp [get_directory_size, rglobL, rglobE, fileBytesL, fileBytesE, Entry.stSize]

/-- C8 amended: `total_size(dir)` equals the sum over every entry
(file or directory) reachable under `dir` of the size stat reports for
it, i.e. the sum of the reachable files' byte lengths plus the reported
sizes of the reachable directory inodes; when the tree contains no
subdirectories this is exactly the sum of the files' byte lengths, and it
is 0 for an empty directory. -/
theorem claim8_amended (es : List Entry) :
    get_directory_size es = fileBytesL es + dirStatL es ∧
    (es.all Entry.isFile = true → get_directory_size es = fileBytesL es) ∧
    get_directory_size ([] : List Entry) = 0 :=
  ⟨get_directory_size_decomp es, fun h => get_directory_size_flatOnly h,
    by simp [get_directory_size, rglobL]⟩

/-- Witness for C8 amended on a concrete flat directory. -/
theorem claim8_witness :
    ([Entry.file "a" 0 "xy"].all Entry.isFile = true) ∧
    get_directory_size [Entry.file "a" 0 "xy"] = fileBytesL [Entry.file "a" 0 "xy"] :=
  ⟨rfl, (claim8_amended [Entry.file "a" 0 "xy"]).2.1 rfl⟩

/-- C4: `archive` first validates the destination — if the destination
path does not exist or is not a directory it returns the fatal
configuration `ValueError` with an empty side-effect trace, i.e. before
any mount or filesystem mutation; when validation passes and the scope is
entered (mount succeeds), the call equals the composition that runs
`archive_move` on the source and destination, then `loop_delete` on the
destination `archive_move` produced, then `archive_delete` on the source
`archive_move` left behind, with the scope teardown applied last to the
post-body world and its side effects last in the trace. -/
theorem claim4_archive_orchestration (fl : Flags) (spec : SourceSpec)
    (dspec : DestinationSpec) (env : Env) (w : World) (sd : StorageDevice) :
    (w.dstIsDir = false →
      archive fl spec dspec env w =
        ⟨.error (.valueError destMissingMsg), env.deviceFiles, w, []⟩) ∧
    (w.dstIsDir = true → spec.location = .storage_device sd →
      effExit fl env.mountExit = 0 →
      ∀ ld : Dir × List (Nat × String),
        loop_delete fl dspec.loop_size
          (archive_move fl spec.patterns env.deviceFiles w.dst).2.1 = .ok ld →
        archive fl spec dspec env w =
          ⟨(match (teardown_source_spec fl spec env (some w.nextTemp)
                ⟨ld.1, w.dstIsDir, w.tempDirs ++ [w.nextTemp], w.nextTemp + 1⟩).result with
            | .error e2 => .error e2
            | .ok _ => .ok ()),
            (archive_delete fl spec.delete_patterns
              (archive_move fl spec.patterns env.deviceFiles w.dst).1).1,
            (teardown_source_spec fl spec env (some w.nextTemp)
              ⟨ld.1, w.dstIsDir, w.tempDirs ++ [w.nextTemp], w.nextTemp + 1⟩).world,
            (Action.mkdtemp w.nextTemp ::
              (run_process fl (mountArgs (devicePath sd) (tempPath w.nextTemp)
                (some sd.mount_options)) env.mountExit).2) ++
            (archive_move fl spec.patterns env.deviceFiles w.dst).2.2 ++
            ld.2.map (fun ev => Action.unlink ev.2) ++
            (archive_delete fl spec.delete_patterns
              (archive_move fl spec.patterns env.deviceFiles w.dst).1).2 ++
            (teardown_source_spec fl spec env (some w.nextTemp)
              ⟨ld.1, w.dstIsDir, w.tempDirs ++ [w.nextTemp], w.nextTemp + 1⟩).trace⟩) :=
  ⟨fun h => archive_dstInvalid fl spec dspec env h,
    fun h1 h2 h3 _ld hld => archive_mountOk_eq dspec env h1 h2 h3 hld⟩

/-- Witness for C4 at a concrete run: one matching device file ends up in
the destination and the whole call succeeds. -/
theorem claim4_witness :
    (archive flReal specU dspecU envOk w0).result = .ok () ∧
    (archive flReal specU dspecU envOk w0).world.dst = [⟨"v.MP4", 0, "ab"⟩] := by
  have h := (claim4_archive_orchestration flReal specU dspecU envOk w0 sdU).2 rfl rfl rfl
    ([⟨"v.MP4", 0, "ab"⟩], []) (by rfl)
  rw [h]
  exact ⟨rfl, rfl⟩

/-- C5: `mount` raises `MountError` exactly when the (effective) mount
command exit code is nonzero, and raises nothing else; `umount` raises a
generic `RuntimeError` — never a `MountError` — exactly when its exit
code is nonzero; the job driver catches exactly `MountError` per source
and proceeds to the remaining sources from the failed call's world, while
any other exception from `archive` terminates the run at that source with
the remaining sources unprocessed. -/
theorem claim5_error_handling (fl : Flags) (device mountPath : String)
    (options : Option (List String)) (e : Nat) (dspec : DestinationSpec)
    (spec : SourceSpec) (env : Env) (rest : List (SourceSpec × Env)) (w : World) :
    ((∃ m, (mount fl device mountPath options e).1 = .error (.mountError m)) ↔
      effExit fl e ≠ 0) ∧
    (∀ err, (mount fl device mountPath options e).1 = .error err →
      ∃ m, err = .mountError m) ∧
    ((∃ m, (umount fl mountPath e).1 = .error (.runtimeError m)) ↔ effExit fl e ≠ 0) ∧
    (∀ err, (umount fl mountPath e).1 = .error err → ∃ m, err = .runtimeError m) ∧
    (∀ m, (archive fl spec dspec env w).result = .error (.mountError m) →
      processSources fl dspec ((spec, env) :: rest) w =
        ⟨(processSources fl dspec rest (archive fl spec dspec env w).world).result,
          (archive fl spec dspec env w).device ::
            (processSources fl dspec rest (archive fl spec dspec env w).world).devices,
          (processSources fl dspec rest (archive fl spec dspec env w).world).world,
          (archive fl spec dspec env w).trace ++
            (processSources fl dspec rest (archive fl spec dspec env w).world).trace⟩) ∧
    (∀ err, (archive fl spec dspec env w).result = .error err →
      (∀ m, err ≠ .mountError m) →
      processSources fl dspec ((spec, env) :: rest) w =
        ⟨.error err,
          (archive fl spec dspec env w).device :: rest.map (fun x => x.2.deviceFiles),
          (archive fl spec dspec env w).world, (archive fl spec dspec env w).trace⟩) := by
  refine ⟨?_, ?_, ?_, ?_, ?_, ?_⟩
  · constructor
    · rintro ⟨m, hm⟩
      by_contra h
      have hz : ¬(effExit fl e ≠ 0) := by simp [h]
      rw [mount_eq, if_neg hz] at hm
      simp at hm
    · intro h
      exact ⟨"Mount failed for " ++ device ++ " <- " ++ mountPath ++ ".",
        by simp [mount_eq, h]⟩
  · intro err herr
    by_cases h : effExit fl e ≠ 0
    · rw [mount_eq, if_pos h] at herr
      exact ⟨_, (Except.error.inj herr).symm⟩
    · rw [mount_eq, if_neg h] at herr
      simp at herr
  · constructor
    · rintro ⟨m, hm⟩
      by_contra h
      have hz : ¬(effExit fl e ≠ 0) := by simp [h]
      rw [umount_eq, if_neg hz] at hm
      simp at hm
    · intro h
      exact ⟨"Umount failed for " ++ mountPath ++ ".", by simp [umount_eq, h]⟩
  · intro err herr
    by_cases h : effExit fl e ≠ 0
    · rw [umount_eq, if_pos h] at herr
      exact ⟨_, (Except.error.inj herr).symm⟩
    · rw [umount_eq, if_neg h] at herr
      simp at herr
  · intro m hm
    exact processSources_cons_continue hm
  · intro err herr hnm
    exact processSources_cons_fatal herr hnm

/-- Witness for C5: a failing mount yields a `MountError`, and a batch
whose first source cannot be mounted still archives the second source's
file into the destination and finishes successfully. -/
theorem claim5_witness :
    (∃ m, (mount flReal "/dev/x" "/mnt" none 1).1 = .error (.mountError m)) ∧
    (processSources flReal dspecU [(specU, envFailMount), (specU, envOk)] w0).result =
      .ok () ∧
    (processSources flReal dspecU [(specU, envFailMount), (specU, envOk)] w0).world.dst =
      [⟨"v.MP4", 0, "ab"⟩] := by
  refine ⟨?_, ?_, ?_⟩
  · exact ((claim5_error_handling flReal "/dev/x" "/mnt" none 1 dspecU specU envOk
      [] w0).1).mpr (by decide)
  · have h := (claim5_error_handling flReal "/dev/x" "/mnt" none 1 dspecU specU envFailMount
      [(specU, envOk)] w0).2.2.2.2.1
      "Mount failed for /dev/disk/by-uuid/test-uuid <- /tmp/tmp0." rfl
    rw [h]
    rfl
  · have h := (claim5_error_handling flReal "/dev/x" "/mnt" none 1 dspecU specU envFailMount
      [(specU, envOk)] w0).2.2.2.2.1
      "Mount failed for /dev/disk/by-uuid/test-uuid <- /tmp/tmp0." rfl
    rw [h]
    rfl

/-- Counterexample to C6 as stated: with a valid destination and a mount
command exiting 1, `archive` raises `MountError`; the driver handles it
and finishes, yet the temporary directory created before the failed mount
call is still present afterwards — it does persist, because a `with`
statement whose `__enter__` raises never runs `__exit__`, and nothing
else removes the directory. -/
theorem claim6_counterexample :
    (archive flReal specU dspecU envFailMount w0).result =
      .error (.mountError "Mount failed for /dev/disk/by-uuid/test-uuid <- /tmp/tmp0.") ∧
    (processSources flReal dspecU [(specU, envFailMount)] w0).result = .ok () ∧
    (processSources flReal dspecU [(specU, envFailMount)] w0).world.tempDirs = [0] :=
  ⟨rfl, rfl, rfl⟩

/-- C6 amended: when the mount invocation exits nonzero during scope
setup, `MountError` is raised, but the temporary directory created before
the failed mount call persists: the scope was never entered, so its
teardown never runs (the call's trace holds no `rmdir`), and the
directory is still present in the world after the whole driver loop has
handled the error and moved on. -/
theorem claim6_amended (fl : Flags) (spec : SourceSpec) (dspec : DestinationSpec)
    (env : Env) (w : World) (sd : StorageDevice) (rest : List (SourceSpec × Env))
    (hwf : TempWF w) (hdst : w.dstIsDir = true)
    (hloc : spec.location = .storage_device sd)
    (hmt : effExit fl env.mountExit ≠ 0) :
    (archive fl spec dspec env w).result =
      .error (.mountError ("Mount failed for " ++ devicePath sd ++ " <- " ++
        tempPath w.nextTemp ++ ".")) ∧
    (archive fl spec dspec env w).world.tempDirs = w.tempDirs ++ [w.nextTemp] ∧
    (∀ tid, Action.rmdir tid ∉ (archive fl spec dspec env w).trace) ∧
    w.nextTemp ∈ (processSources fl dspec ((spec, env) :: rest) w).world.tempDirs := by
  have ha := archive_mountFail_eq dspec env hdst hloc hmt
  refine ⟨by rw [ha], by rw [ha], ?_, ?_⟩
  · intro tid hmem
    rw [ha] at hmem
    dsimp only at hmem
    rcases List.mem_cons.mp hmem with h | h
    · cases h
    · revert h
      unfold run_process
      cases fl.dry_run <;> simp
  · have hres : (archive fl spec dspec env w).result =
        .error (.mountError ("Mount failed for " ++ devicePath sd ++ " <- " ++
          tempPath w.nextTemp ++ ".")) := by rw [ha]
    rw [processSources_cons_continue hres]
    have hwfa : TempWF (archive fl spec dspec env w).world :=
      (archive_tempDirs fl spec dspec env w hwf).2.1
    have hmem0 : w.nextTemp ∈ (archive fl spec dspec env w).world.tempDirs := by
      rw [ha]; simp
    exact processSources_tempDirs fl dspec rest _ hwfa _ hmem0

/-- Witness for C6 amended at the concrete failing-mount run. -/
theorem claim6_witness :
    (archive flReal specU dspecU envFailMount w0).world.tempDirs = [0] ∧
    0 ∈ (processSources flReal dspecU [(specU, envFailMount)] w0).world.tempDirs := by
  have h := claim6_amended flReal specU dspecU envFailMount w0 sdU []
    (by intro t ht; simp [w0] at ht) rfl rfl (by decide)
  exact ⟨by simpa using h.2.1, h.2.2.2⟩

/-- Counterexample to C7 as stated: a scope that was set up and then torn
down can be set up again — the second `setup_source_spec` returns a fresh
path instead of raising a fatal usage error, because teardown resets
`source_path` to `None` and setup only rejects a non-`None`
`source_path`. -/
theorem claim7_counterexample :
    (setup_source_spec flReal specU envOk
      (teardown_source_spec flReal specU envOk
        (setup_source_spec flReal specU envOk none w0).state
        (setup_source_spec flReal specU envOk none w0).world).state
      (teardown_source_spec flReal specU envOk
        (setup_source_spec flReal specU envOk none w0).state
        (setup_source_spec flReal specU envOk none w0).world).world).result =
      .ok 1 := rfl

/-- C7 amended: calling setup on an already-ACTIVE scope raises a fatal
usage `RuntimeError` and performs no side effect, but the scope is *not*
single-use: a successful teardown resets the state to `None`
(indistinguishable from UNINITIALIZED), after which setting up again is
permitted and succeeds whenever the mount command succeeds. -/
theorem claim7_amended (fl : Flags) (spec : SourceSpec) (env : Env) (w w' : World)
    (p : Nat) (sd : StorageDevice) (hloc : spec.location = .storage_device sd)
    (hmt : effExit fl env.mountExit = 0) (hut : effExit fl env.umountExit = 0) :
    (setup_source_spec fl spec env (some p) w).result =
      .error (.runtimeError "Cannot setup; already setup.") ∧
    (setup_source_spec fl spec env (some p) w).world = w ∧
    (teardown_source_spec fl spec env (some p) w').state = none ∧
    (∃ tid, (setup_source_spec fl spec env
        (teardown_source_spec fl spec env (some p) w').state
        (teardown_source_spec fl spec env (some p) w').world).result = .ok tid) := by
  have h3 : (teardown_source_spec fl spec env (some p) w').state = none := by
    have hu : ¬(effExit fl env.umountExit ≠ 0) := by simp [hut]
    simp [teardown_source_spec, hloc, umount_eq, if_neg hu]
  refine ⟨rfl, rfl, h3, ?_⟩
  rw [h3]
  have hm : ¬(effExit fl env.mountExit ≠ 0) := by simp [hmt]
  refine ⟨(teardown_source_spec fl spec env (some p) w').world.nextTemp, ?_⟩
  simp [setup_source_spec, hloc, mount_eq, if_neg hm]

/-- Witness for C7 amended at a concrete scope. -/
theorem claim7_witness :
    (setup_source_spec flReal specU envOk (some 0) w0).result =
      .error (.runtimeError "Cannot setup; already setup.") ∧
    (∃ tid, (setup_source_spec flReal specU envOk
        (teardown_source_spec flReal specU envOk (some 0) w0).state
        (teardown_source_spec flReal specU envOk (some 0) w0).world).result = .ok tid) := by
  have h := claim7_amended flReal specU envOk w0 w0 0 sdU rfl (by decide) (by decide)
  exact ⟨h.1, h.2.2.2⟩

/-- Counterexample to C9 as stated: even in full dry-run mode a run over
one mount-backed source creates (and then removes) a real temporary
mount-point directory — `tempfile.mkdtemp()` and `Path.rmdir()` are not
guarded by the dry-run flag — so "no directory is created or removed" is
false. -/
theorem claim9_counterexample :
    Action.mkdtemp 0 ∈ (processSources flDry dspecU [(specU, envOk)] w0).trace ∧
    Action.rmdir 0 ∈ (processSources flDry dspecU [(specU, envOk)] w0).trace :=
  ⟨by decide, by decide⟩

/-- C9 amended: in full dry-run mode an entire run spawns no process and
neither copies, deletes nor moves any file; the destination directory,
every device's files and the set of temporary directories are unchanged
afterwards.  However, for each mount-backed source a real temporary
mount-point directory is created and removed again within the source's
scope — the only filesystem mutations of a dry run. -/
theorem claim9_amended (fl : Flags) (dspec : DestinationSpec)
    (entries : List (SourceSpec × Env)) (w : World)
    (hdry : fl.dry_run = true) (hwf : TempWF w) :
    (∀ a ∈ (processSources fl dspec entries w).trace,
      a.isSpawn = false ∧ a.isFileMutation = false) ∧
    (processSources fl dspec entries w).world.dst = w.dst ∧
    (processSources fl dspec entries w).world.tempDirs = w.tempDirs ∧
    (processSources fl dspec entries w).devices =
      entries.map (fun e => e.2.deviceFiles) := by
  obtain ⟨h1, h2, h3, h4⟩ := processSources_dry hdry dspec entries w hwf
  exact ⟨h4, h1, h2, h3⟩

/-- Witness for C9 amended at a concrete dry run. -/
theorem claim9_witness :
    (flDry.dry_run = true ∧ TempWF w0) ∧
    (processSources flDry dspecU [(specU, envOk)] w0).world.dst = w0.dst ∧
    (processSources flDry dspecU [(specU, envOk)] w0).world.tempDirs = w0.tempDirs := by
  have hwf : TempWF w0 := by intro t ht; simp [w0] at ht
  have h := claim9_amended flDry dspecU [(specU, envOk)] w0 rfl hwf
  exact ⟨⟨rfl, hwf⟩, h.2.1, h.2.2.1⟩

end LoopArchive
